import Mathlib

/-!
# Verification of the avsproxy IPC substrate

A shallow embedding of the IPC data structures and operations of the
sekrit-twc/avsproxy repository (`src/ipc/ipc_types.cpp`,
`src/ipc/ipc_commands.cpp`, `src/ipc/ipc_client.cpp`,
`src/ipc/video_types.cpp`, `src/avshost_native/main.cpp`), together with
theorems settling the specification claims about the ring-buffer queue, the
best-fit heap allocator, the command codec, the transport client and the
slave-side attach validation.

Machine integers are modelled as `Nat` with explicit reduction modulo `2^32`
(respectively `2^64` for `size_t`) at every operation where the C code
performs unsigned arithmetic that may wrap.  Struct layout constants that
live in `src/ipc/ipc_types.h` (a file not present in the source tree; only
its users are) are modelled from the spec's on-disk layout section and are
marked as such.

The file is organised as definitions first, then theorems.
-/

namespace Avsproxy

/-! ### Definitions -/

/-- `2^32`, the modulus of `uint32_t` arithmetic. -/
def U32 : Nat := 4294967296

/-- `2^64`, the modulus of `size_t` arithmetic (64-bit build). -/
def U64 : Nat := 18446744073709551616

/-- Modelled from the spec: the reserved all-ones sentinel offset meaning
"null" (`NULL_OFFSET` in `ipc_types.h`). -/
def NULL_OFFSET : Nat := U32 - 1

/-- `uint32_t` addition. -/
def u32add (a b : Nat) : Nat := (a + b) % U32

/-- `uint32_t` subtraction (two's complement wraparound), assuming the
operands are reduced (`a b < U32`). -/
def u32sub (a b : Nat) : Nat := (a + U32 - b) % U32

/-- `size_t` subtraction (two's complement wraparound), assuming the
operands are reduced (`a b < U64`). -/
def u64sub (a b : Nat) : Nat := (a + U64 - b) % U64

/-! ## Ring-buffer queue (`src/ipc/ipc_types.cpp`, `queue_read`/`queue_write`)

The queue is a header followed by a byte buffer inside the shared segment.
The byte buffer is modelled as a function from byte index to byte value;
`memWrite` models a `memcpy` into the buffer and `memSeg` a `memcpy` out of
it.  Only the fields touched by `queue_read`/`queue_write` are carried
(`event_handle`/`mutex_handle` are opaque to these functions). -/

structure Queue where
  size : Nat
  buffer_offset : Nat
  buffer_usage : Nat
  read_pos : Nat
  write_pos : Nat
  data : Nat → Nat

/-- `memcpy(base + pos, src, src.length)` into a buffer. -/
def memWrite (d : Nat → Nat) (pos : Nat) (src : List Nat) : Nat → Nat :=
  fun i => if pos ≤ i ∧ i < pos + src.length then src.getD (i - pos) 0 else d i

/-- `memcpy(dst, base + pos, n)` out of a buffer. -/
def memSeg (d : Nat → Nat) (pos n : Nat) : List Nat :=
  (List.range n).map (fun j => d (pos + j))

/-- `capacity = queue->size - queue->buffer_offset` (uint32 arithmetic). -/
def Queue.capacity (q : Queue) : Nat := u32sub q.size q.buffer_offset

/-- `queue_read(Queue *queue, void *buf)`: drains all currently enqueued
bytes (returned as the second component) and resets `buffer_usage` to 0,
copying in at most two segments when the content wraps. -/
def queue_read (q : Queue) : Queue × List Nat :=
  let capacity := q.capacity
  if q.buffer_usage ≤ u32sub capacity q.read_pos then
    ({ q with read_pos := u32add q.read_pos q.buffer_usage, buffer_usage := 0 },
     memSeg q.data q.read_pos q.buffer_usage)
  else
    let read_first := u32sub capacity q.read_pos
    ({ q with read_pos := u32sub q.buffer_usage read_first, buffer_usage := 0 },
     memSeg q.data q.read_pos read_first ++ memSeg q.data 0 (u32sub q.buffer_usage read_first))

/-- `queue_write(Queue *queue, const void *buf, uint32_t size)` with
`size = buf.length`: appends the bytes at `write_pos`, splitting in two
when the write wraps, and advances `write_pos` and `buffer_usage`.
The debug assertion guarding the call is modelled separately as
`queue_write_assert`; in a release build the function performs the write
unconditionally, exactly as below. -/
def queue_write (q : Queue) (buf : List Nat) : Queue :=
  let capacity := q.capacity
  let size := buf.length
  if size ≤ u32sub capacity q.write_pos then
    { q with data := memWrite q.data q.write_pos buf,
             write_pos := u32add q.write_pos size,
             buffer_usage := u32add q.buffer_usage size }
  else
    let write_first := u32sub capacity q.write_pos
    { q with data := memWrite (memWrite q.data q.write_pos (buf.take write_first)) 0 (buf.drop write_first),
             write_pos := u32sub size write_first,
             buffer_usage := u32add q.buffer_usage size }

/-- The `assert(size <= capacity - queue->buffer_usage)` at the top of
`queue_write`. -/
def queue_write_assert (q : Queue) (size : Nat) : Prop :=
  size ≤ u32sub q.capacity q.buffer_usage

instance (q : Queue) (size : Nat) : Decidable (queue_write_assert q size) := by
  unfold queue_write_assert; infer_instance

/-- The queue invariant exactly as the spec states it:
`0 ≤ buffer_usage ≤ capacity` and
`(write_pos − read_pos) mod capacity == buffer_usage` (the subtraction taken
modulo `capacity`). -/
def Queue.specInvariant (q : Queue) : Prop :=
  q.buffer_usage ≤ q.capacity ∧
  (q.write_pos + q.capacity - q.read_pos) % q.capacity = q.buffer_usage

instance (q : Queue) : Decidable q.specInvariant := by
  unfold Queue.specInvariant; infer_instance

/-- The invariant the code actually maintains: usage bounded by capacity,
both positions bounded by capacity (the value `capacity` itself is
transiently reachable), and the position/usage relation holding modulo
capacity on both sides. -/
def Queue.wf (q : Queue) : Prop :=
  q.buffer_offset ≤ q.size ∧ q.size < U32 ∧ 0 < q.capacity ∧
  q.buffer_usage ≤ q.capacity ∧ q.read_pos ≤ q.capacity ∧ q.write_pos ≤ q.capacity ∧
  (q.write_pos + q.capacity - q.read_pos) % q.capacity = q.buffer_usage % q.capacity

instance (q : Queue) : Decidable q.wf := by
  unfold Queue.wf; infer_instance

/-- The bytes currently enqueued, in FIFO order (ring order starting at
`read_pos`). -/
def Queue.pending (q : Queue) : List Nat :=
  (List.range q.buffer_usage).map (fun j => q.data ((q.read_pos + j) % q.capacity))

/-- `msgs.foldl queue_write q`: a sequence of framed message writes. -/
def writeAll (q : Queue) (msgs : List (List Nat)) : Queue :=
  msgs.foldl queue_write q

/-- An empty queue of capacity 4 used as a concrete test vector. -/
def qEmpty4 : Queue :=
  { size := 4, buffer_offset := 0, buffer_usage := 0, read_pos := 0, write_pos := 0,
    data := fun _ => 0 }

/-- An empty queue of capacity 4 whose positions sit near the wrap point,
used as a concrete test vector for wrapping writes. -/
def qWrap4 : Queue :=
  { size := 4, buffer_offset := 0, buffer_usage := 0, read_pos := 3, write_pos := 3,
    data := fun _ => 0 }

/-! ## Best-fit heap allocator (`src/ipc/ipc_types.cpp`)

The arena is modelled as an association list from byte offset (relative to
the heap arena base) to node header content.  A node header's `magic`
field is tracked as the boolean `magicOk` (whether it holds `"memz"`);
`heap_free` scrubs it with `memset` without removing the header bytes, so
a scrubbed header stays in the map with `magicOk := false`.  The `flags`
word has a single defined bit, `HEAP_FLAG_ALLOCATED`, tracked as the
boolean `allocated`.  The C `assert` statements are modelled as explicit
checks yielding `HErr.assertFail`; reading memory that never held a node
header yields `HErr.badDeref`; the unbounded C loops are given fuel
(`node count + 1`, enough for any consistent list) and exhaustion yields
`HErr.fuelOut`. -/

structure HeapNode where
  magicOk : Bool
  prev_node_offset : Nat
  next_node_offset : Nat
  allocated : Bool
deriving DecidableEq

/-- Modelled from the spec: `sizeof(HeapNode)` — a 16-byte node header
(`magic`, `prev_off`, `next_off`, `flags`). -/
def sizeofHeapNode : Nat := 16

/-- Modelled from the spec: `alignof(HeapNode)` — node headers are
16-byte-aligned. -/
def alignofHeapNode : Nat := 16

structure Heap where
  size : Nat
  buffer_offset : Nat
  buffer_usage : Nat
  last_free_offset : Nat
  mutex_handle : Nat
  nodes : List (Nat × HeapNode)
deriving DecidableEq

inductive HErr where
  | assertFail
  | badDeref
  | fuelOut
deriving DecidableEq

/-- Read the node header at `off`, when one was ever written there. -/
def lookupNode : List (Nat × HeapNode) → Nat → Option HeapNode
  | [], _ => none
  | p :: rest, off => if p.1 = off then some p.2 else lookupNode rest off

/-- Write the node header at `off` (overwrite or fresh). -/
def setNode (ns : List (Nat × HeapNode)) (off : Nat) (n : HeapNode) : List (Nat × HeapNode) :=
  match ns with
  | [] => [(off, n)]
  | p :: rest => if p.1 = off then (off, n) :: rest else p :: setNode rest off n

/-- `capacity = heap->size - heap->buffer_offset`. -/
def heapCapacity (h : Heap) : Nat := u32sub h.size h.buffer_offset

/-- `node_real_next`: a null next offset stands for the arena capacity. -/
def realNextOf (cap : Nat) (n : HeapNode) : Nat :=
  if n.next_node_offset = NULL_OFFSET then cap else n.next_node_offset

/-- The round-up of the allocated size inside `split_heap_node`:
`if (alloc_size % alignof(HeapNode)) alloc_size += alignof(HeapNode) - alloc_size % alignof(HeapNode)`. -/
def alignUpHeapNode (n : Nat) : Nat :=
  if n % alignofHeapNode = 0 then n else u32add n (alignofHeapNode - n % alignofHeapNode)

/-- `split_heap_node(void *heap_base, HeapNode *node, uint32_t size)`:
inserts a fresh node header right after the (aligned) allocated portion of
the node at `node_offset` (whose current content is `node`) and truncates
that node.  Note the successor node's `prev_node_offset` is not updated. -/
def split_heap_node (ns : List (Nat × HeapNode)) (node_offset : Nat) (node : HeapNode)
    (size : Nat) : List (Nat × HeapNode) :=
  setNode
    (setNode ns (u32add node_offset (alignUpHeapNode size))
      ({ magicOk := true, prev_node_offset := node_offset,
         next_node_offset := node.next_node_offset, allocated := false }))
    node_offset ({ node with next_node_offset := u32add node_offset (alignUpHeapNode size) })

/-- The forward scan loop of `heap_alloc` (`size` already includes the
header).  A `some` offset in the result is the allocated node; `none`
means the scan exhausted the list (`break` to the reverse scan). -/
def allocFwdLoop (cap size : Nat) : Nat → Heap → Nat → Except HErr (Heap × Option Nat)
  | 0, _, _ => .error .fuelOut
  | fuel + 1, h, cur =>
    match lookupNode h.nodes cur with
    | none => .error .badDeref
    | some node =>
      if node.magicOk = false then .error .assertFail
      else
        if node.allocated = false ∧ size < u32sub (realNextOf cap node) cur then
          if 4096 ≤ u32sub (u32sub (realNextOf cap node) cur) size then
            match lookupNode (split_heap_node h.nodes cur node size) cur with
            | none => .error .badDeref
            | some node2 =>
              .ok ({ h with nodes := setNode (split_heap_node h.nodes cur node size) cur
                              ({ node2 with allocated := true }),
                            buffer_usage :=
                              u32add h.buffer_usage (u32sub node2.next_node_offset cur) },
                   some cur)
          else
            .ok ({ h with nodes := setNode h.nodes cur ({ node with allocated := true }),
                          buffer_usage :=
                            u32add h.buffer_usage (u32sub (realNextOf cap node) cur) },
                 some cur)
        else
          if node.next_node_offset = NULL_OFFSET then .ok (h, none)
          else allocFwdLoop cap size fuel h node.next_node_offset

/-- The reverse scan loop of `heap_alloc`.  Identical fit and split rules,
but `buffer_usage` is not updated (mirroring the source). -/
def allocRevLoop (cap size : Nat) : Nat → Heap → Nat → Except HErr (Heap × Option Nat)
  | 0, _, _ => .error .fuelOut
  | fuel + 1, h, cur =>
    match lookupNode h.nodes cur with
    | none => .error .badDeref
    | some node =>
      if node.magicOk = false then .error .assertFail
      else
        if node.allocated = false ∧ size < u32sub (realNextOf cap node) cur then
          match lookupNode (if 4096 ≤ u32sub (u32sub (realNextOf cap node) cur) size
                            then split_heap_node h.nodes cur node size else h.nodes) cur with
          | none => .error .badDeref
          | some node2 =>
            .ok ({ h with nodes := setNode
                            (if 4096 ≤ u32sub (u32sub (realNextOf cap node) cur) size
                             then split_heap_node h.nodes cur node size else h.nodes) cur
                            ({ node2 with allocated := true }) }, some cur)
        else
          if node.prev_node_offset = NULL_OFFSET then .ok (h, none)
          else allocRevLoop cap size fuel h node.prev_node_offset

/-- The scan starting point: `last_free_offset` when set, else the first
node. -/
def allocStart (h : Heap) : Nat :=
  if h.last_free_offset ≠ NULL_OFFSET then h.last_free_offset else 0

/-- Loop fuel: one more than the number of node headers ever written. -/
def allocFuel (h : Heap) : Nat := h.nodes.length + 1

/-- `heap_alloc(Heap *heap, uint32_t size)`: capacity checks, then forward
scan from the hint, then reverse scan from the hint's predecessor.
Returns the allocated node offset, or `none` for `nullptr`. -/
def heap_alloc (h : Heap) (size : Nat) : Except HErr (Heap × Option Nat) :=
  if size > u32sub (heapCapacity h) sizeofHeapNode then .ok (h, none)
  else
    if u32add size sizeofHeapNode > u32sub (heapCapacity h) h.buffer_usage then .ok (h, none)
    else
      match allocFwdLoop (heapCapacity h) (u32add size sizeofHeapNode) (allocFuel h) h
          (allocStart h) with
      | .error e => .error e
      | .ok (h2, some off) => .ok (h2, some off)
      | .ok (h2, none) =>
        match lookupNode h2.nodes (allocStart h) with
        | none => .error .badDeref
        | some initial =>
          if initial.prev_node_offset = NULL_OFFSET then .ok (h2, none)
          else allocRevLoop (heapCapacity h) (u32add size sizeofHeapNode) (allocFuel h) h2
                 initial.prev_node_offset

/-- Whether the forward scan of `heap_alloc h size` locates the fit. -/
def allocFwdFound (h : Heap) (size : Nat) : Bool :=
  match allocFwdLoop (heapCapacity h) (u32add size sizeofHeapNode) (allocFuel h) h
      (allocStart h) with
  | .ok (_, some _) => true
  | _ => false

/-- The forward-merge loop of `heap_free`: while the successor exists and
is free, absorb it into the node at `cur` and scrub its magic. -/
def freeFwdLoop : Nat → List (Nat × HeapNode) → Nat → Except HErr (List (Nat × HeapNode))
  | 0, _, _ => .error .fuelOut
  | fuel + 1, ns, cur =>
    match lookupNode ns cur with
    | none => .error .badDeref
    | some node =>
      if node.next_node_offset = NULL_OFFSET then .ok ns
      else
        match lookupNode ns node.next_node_offset with
        | none => .error .badDeref
        | some next =>
          if next.magicOk = false then .error .assertFail
          else if next.allocated then .ok ns
          else
            freeFwdLoop fuel
              (setNode (setNode ns cur { node with next_node_offset := next.next_node_offset })
                node.next_node_offset { next with magicOk := false }) cur

/-- The reverse-merge loop of `heap_free`: while the predecessor exists
and is free, absorb the node at `cur` into it (scrubbing `cur`) and step
back.  Returns the final merged node offset (the new `last_free_offset`). -/
def freeRevLoop : Nat → List (Nat × HeapNode) → Nat → Except HErr (List (Nat × HeapNode) × Nat)
  | 0, _, _ => .error .fuelOut
  | fuel + 1, ns, cur =>
    match lookupNode ns cur with
    | none => .error .badDeref
    | some node =>
      if node.prev_node_offset = NULL_OFFSET then .ok (ns, cur)
      else
        match lookupNode ns node.prev_node_offset with
        | none => .error .badDeref
        | some prev =>
          if prev.magicOk = false then .error .assertFail
          else if prev.allocated then .ok (ns, cur)
          else
            freeRevLoop fuel
              (setNode (setNode ns node.prev_node_offset
                  { prev with next_node_offset := node.next_node_offset })
                cur { node with magicOk := false }) node.prev_node_offset

/-- `heap_free(Heap *heap, HeapNode *node)` for the node at offset `off`:
assert magic and allocated flag, clear the flag, subtract the real size
from `buffer_usage`, merge forward then backward, update
`last_free_offset` to the final coalesced node. -/
def heap_free (h : Heap) (off : Nat) : Except HErr Heap :=
  match lookupNode h.nodes off with
  | none => .error .badDeref
  | some node =>
    if node.magicOk = false then .error .assertFail
    else if node.allocated = false then .error .assertFail
    else
      let cap := heapCapacity h
      let node_real_next := realNextOf cap node
      let node_real_size := u32sub node_real_next off
      if ¬ node_real_size ≤ h.buffer_usage then .error .assertFail
      else
        let ns := setNode h.nodes off { node with allocated := false }
        let usage := u32sub h.buffer_usage node_real_size
        match freeFwdLoop (h.nodes.length + 1) ns off with
        | .error e => .error e
        | .ok ns2 =>
          match freeRevLoop (h.nodes.length + 1) ns2 off with
          | .error e => .error e
          | .ok (ns3, finalOff) =>
            .ok { h with nodes := ns3, buffer_usage := usage, last_free_offset := finalOff }

/-- Walk the node list forward along `next_node_offset` from `cur`. -/
def fwdTraverse (ns : List (Nat × HeapNode)) : Nat → Nat → List (Nat × HeapNode)
  | 0, _ => []
  | fuel + 1, cur =>
    match lookupNode ns cur with
    | none => []
    | some n =>
      (cur, n) :: (if n.next_node_offset = NULL_OFFSET then []
                   else fwdTraverse ns fuel n.next_node_offset)

/-- Walk the node list backward along `prev_node_offset` from `cur`. -/
def bwdTraverse (ns : List (Nat × HeapNode)) : Nat → Nat → List (Nat × HeapNode)
  | 0, _ => []
  | fuel + 1, cur =>
    match lookupNode ns cur with
    | none => []
    | some n =>
      (cur, n) :: (if n.prev_node_offset = NULL_OFFSET then []
                   else bwdTraverse ns fuel n.prev_node_offset)

/-- The offset of the last node of the forward traversal (traversal start
for the backward walk). -/
def lastNodeOffset (h : Heap) : Nat :=
  match (fwdTraverse h.nodes (h.nodes.length + 1) 0).getLast? with
  | some p => p.1
  | none => 0

/-- No two adjacent entries of the traversal are both free. -/
def noAdjacentFree : List (Nat × HeapNode) → Bool
  | [] => true
  | [_] => true
  | a :: b :: rest => (a.2.allocated || b.2.allocated) && noAdjacentFree (b :: rest)

/-- The heap invariant exactly as the spec states it: forward and backward
traversal yield the same multiset of nodes, the sum of allocated nodes'
real sizes (headers included) equals `buffer_usage`, and no two adjacent
nodes are both free. -/
def heapInvariant (h : Heap) : Prop :=
  let f := fwdTraverse h.nodes (h.nodes.length + 1) 0
  let b := bwdTraverse h.nodes (h.nodes.length + 1) (lastNodeOffset h)
  f.Perm b ∧
  ((f.filter (fun p => p.2.allocated)).map
      (fun p => u32sub (realNextOf (heapCapacity h) p.2) p.1)).sum = h.buffer_usage ∧
  noAdjacentFree f = true

instance (h : Heap) : Decidable (heapInvariant h) := by
  unfold heapInvariant; infer_instance

/-- One `alloc`/`free` operation against the heap (offsets are node-header
offsets, as `heap_free` receives them). -/
inductive HeapOp where
  | alloc (size : Nat)
  | free (off : Nat)
deriving DecidableEq

/-- Run a sequence of heap operations, propagating assertion failures. -/
def runHeapOps (h : Heap) : List HeapOp → Except HErr Heap
  | [] => .ok h
  | .alloc size :: rest =>
    match heap_alloc h size with
    | .error e => .error e
    | .ok (h2, _) => runHeapOps h2 rest
  | .free off :: rest =>
    match heap_free h off with
    | .error e => .error e
    | .ok h2 => runHeapOps h2 rest

/-- The heap as initialised by the master
(`IPCClient::IPCClient(master_tag, ...)`): a single free node spanning the
arena.  The default member values written by the `HeapNode` and `Heap`
value-initialisations live in the absent `ipc_types.h` and are modelled
from the spec (fresh node: magic `"memz"`, null `prev`/`next`, no flags;
fresh heap: zero usage, null `last_free_offset`). -/
def initHeap (size buffer_offset : Nat) : Heap :=
  { size := size, buffer_offset := buffer_offset, buffer_usage := 0,
    last_free_offset := NULL_OFFSET, mutex_handle := 0,
    nodes := [(0, { magicOk := true, prev_node_offset := NULL_OFFSET,
                    next_node_offset := NULL_OFFSET, allocated := false })] }

/-- The heap produced by `heap_alloc (initHeap 65536 0) 4096`: the single
free node split at the aligned request, first part marked allocated. -/
def allocDemoHeap : Heap :=
  { size := 65536, buffer_offset := 0, buffer_usage := 4112,
    last_free_offset := NULL_OFFSET, mutex_handle := 0,
    nodes := [(0, { magicOk := true, prev_node_offset := NULL_OFFSET,
                    next_node_offset := 4112, allocated := true }),
              (4112, { magicOk := true, prev_node_offset := 0,
                       next_node_offset := NULL_OFFSET, allocated := false })] }

/-! ## Transport client heap interface (`src/ipc/ipc_client.cpp`) -/

inductive ClientError where
  | assertViolation (e : HErr)
  | ipcError (msg : String)
  | heapFull (alloc : Nat) (free : Nat)
deriving DecidableEq

/-- `IPCClient::allocate(size_t size)`: reject requests over `INT32_MAX`
before taking the heap mutex, call `heap_alloc`, throw
`IPCHeapFull{(m_heap->size - m_heap->buffer_offset) - m_heap->buffer_usage, size}`
on a null node, else hand out the offset just past the node header.
`ClientError.heapFull a f` carries the two constructor arguments in order:
`a` becomes the exception's `m_alloc` field and `f` its `m_free` field. -/
def IPCClient_allocate (h : Heap) (size : Nat) : Except ClientError (Heap × Nat) :=
  if size > 2147483647 then .error (.ipcError "cannot allocate more than 2 GB")
  else
    match heap_alloc h size with
    | .error e => .error (.assertViolation e)
    | .ok (h2, none) =>
      .error (.heapFull (u32sub (u32sub h2.size h2.buffer_offset) h2.buffer_usage) size)
    | .ok (h2, some off) => .ok (h2, u32add off sizeofHeapNode)

/-- `some (decide (heapInvariant _))` after running `ops`, `none` when an
assertion fired. -/
def invariantAfter (h : Heap) (ops : List HeapOp) : Option Bool :=
  match runHeapOps h ops with
  | .ok h2 => some (decide (heapInvariant h2))
  | .error _ => none

/-- The error produced by running `ops`, when one is produced. -/
def runErr (h : Heap) (ops : List HeapOp) : Option HErr :=
  match runHeapOps h ops with
  | .error e => some e
  | .ok _ => none

/-- A fit test for the scan: the node at `o` is free and strictly larger
than the request (header included), exactly the loop condition
`!(node->flags & HEAP_FLAG_ALLOCATED) && size < node_size`. -/
def nodeFits (ns : List (Nat × HeapNode)) (cap size o : Nat) : Bool :=
  match lookupNode ns o with
  | none => false
  | some n => decide (n.allocated = false ∧ size < u32sub (realNextOf cap n) o)

/-- The first fitting node, in scan order. -/
def firstFit (ns : List (Nat × HeapNode)) (cap size : Nat) (l : List Nat) : Option Nat :=
  l.find? (fun o => nodeFits ns cap size o)

/-- Round up to the node header alignment (plain arithmetic; equal to
`alignUpHeapNode` whenever no 32-bit wrap occurs). -/
def alignUp16 (n : Nat) : Nat :=
  if n % alignofHeapNode = 0 then n else n + (alignofHeapNode - n % alignofHeapNode)

/-- Modelled from the spec (§4.2 steps 1, 3, 5): applying a located fit at
node `off` for a request of `size` bytes including the header.  When the
remainder after the fit is at least 4096 bytes, split: insert a new free
node header at `off` plus the aligned request and truncate the current
node; then mark the node allocated.  `buffer_usage` grows by the node's
real size (forward-path accounting). -/
def applyFitSpec (h : Heap) (cap size off : Nat) : Heap :=
  match lookupNode h.nodes off with
  | none => h
  | some node =>
    if 4096 ≤ realNextOf cap node - off - size then
      { h with nodes := setNode (setNode h.nodes (off + alignUp16 size)
                 ({ magicOk := true, prev_node_offset := off,
                    next_node_offset := node.next_node_offset, allocated := false })) off
                 ({ node with next_node_offset := off + alignUp16 size, allocated := true }),
               buffer_usage := h.buffer_usage + alignUp16 size }
    else
      { h with nodes := setNode h.nodes off ({ node with allocated := true }),
               buffer_usage := h.buffer_usage + (realNextOf cap node - off) }

inductive SpecAllocResult where
  | fail
  | fit (h2 : Heap) (payload : Nat)
  | fallthrough
deriving DecidableEq

/-- Modelled from the spec (§4.2 allocation algorithm): fail immediately
when the total including the header does not fit in the remaining free
capacity; otherwise scan forward from `last_free_offset` (or the first
node) along the node list `l` for the first free node strictly larger
than request plus header, apply the fit (splitting exactly when the
remainder is ≥ 4096), and hand out the offset just past the header.  A
forward-scan miss falls through to the backward scan (not described by
the claim). -/
def alloc_spec (h : Heap) (l : List Nat) (size : Nat) : SpecAllocResult :=
  if size + sizeofHeapNode > heapCapacity h - h.buffer_usage then .fail
  else
    match firstFit h.nodes (heapCapacity h) (size + sizeofHeapNode)
        (l.dropWhile (fun o => o ≠ allocStart h)) with
    | some off => .fit (applyFitSpec h (heapCapacity h) (size + sizeofHeapNode) off)
        (off + sizeofHeapNode)
    | none => .fallthrough

/-- A test whether the forward-spine check holds: `l` lists the node
offsets reachable from offset 0 along `next_node_offset`, each header
present with intact magic, back-link equal to its predecessor, offsets
strictly increasing and in bounds, and the last node with null next. -/
def checkSpine (ns : List (Nat × HeapNode)) (cap : Nat) : Nat → Nat → List Nat → Bool
  | _, _, [] => false
  | prevOff, cur, o :: rest =>
    decide (o = cur) &&
    (match lookupNode ns o with
     | none => false
     | some n =>
       n.magicOk && decide (n.prev_node_offset = prevOff) &&
       (match rest with
        | [] => decide (n.next_node_offset = NULL_OFFSET)
        | o2 :: _ => decide (n.next_node_offset = o2) && decide (o < o2) &&
                     decide (o2 < cap) && checkSpine ns cap o o2 rest))

/-- A well-formed heap with forward node list `l`: consistent spine from
offset 0, capacity within sane bounds (at least one header, at most
`INT32_MAX` — 2 GiB − 1 — as mapped segments are), usage within capacity,
a hint that is null or on the spine, and a spine no longer than the
header map (so the loop fuel suffices). -/
def Heap.WF (h : Heap) (l : List Nat) : Prop :=
  checkSpine h.nodes (heapCapacity h) NULL_OFFSET 0 l = true ∧
  sizeofHeapNode ≤ heapCapacity h ∧ heapCapacity h ≤ 2147483647 ∧
  h.buffer_offset ≤ h.size ∧ h.size < U32 ∧
  h.buffer_usage ≤ heapCapacity h ∧
  (h.last_free_offset = NULL_OFFSET ∨ h.last_free_offset ∈ l) ∧
  l.length ≤ h.nodes.length

instance (h : Heap) (l : List Nat) : Decidable (Heap.WF h l) := by
  unfold Heap.WF; infer_instance

/-! ## Slave attach validation (`src/ipc/ipc_client.cpp` slave constructor,
`src/avshost_native/main.cpp` `wmain`) -/

/-- Modelled from the spec: `sizeof(ipc::SharedMemoryHeader)` — the magic
plus five u32 fields. -/
def sizeofSharedMemoryHeader : Nat := 24

/-- Modelled from the spec: `sizeof(ipc::Queue)` — the magic plus seven
u32 fields. -/
def sizeofQueue : Nat := 32

/-- Modelled from the spec: `sizeof(ipc::Heap)` — the magic plus five u32
fields. -/
def sizeofHeap : Nat := 24

/-- Modelled from the spec: `sizeof(ipc::Command)` — the 20-byte command
envelope. -/
def sizeofCommand : Nat := 20

/-- Modelled from the spec: `ipc::VERSION`, the protocol version. -/
def VERSION : Nat := 1

/-- The shared-memory header fields read by the slave; `magicOk` stands
for `check_fourcc(header->magic, "avsw")`. -/
structure SegHeader where
  magicOk : Bool
  size : Nat
  version : Nat
  master_queue_offset : Nat
  slave_queue_offset : Nat
  heap_offset : Nat
deriving DecidableEq

/-- The queue header fields read by the slave; `magicOk` stands for
`check_fourcc(queue->magic, "cmdq")`. -/
structure QueueHeaderView where
  magicOk : Bool
  size : Nat
  buffer_offset : Nat
  event_handle : Nat
  mutex_handle : Nat
deriving DecidableEq

/-- The heap header fields read by the slave; `magicOk` stands for
`check_fourcc(heap->magic, "heap")`. -/
structure HeapHeaderView where
  magicOk : Bool
  size : Nat
  buffer_offset : Nat
  mutex_handle : Nat
deriving DecidableEq

/-- The mapped shared segment as the slave constructor reads it: the
header at offset 0 and the three child structures at the header's
offsets. -/
structure SegmentView where
  header : SegHeader
  master_queue : QueueHeaderView
  slave_queue : QueueHeaderView
  heap : HeapHeaderView
deriving DecidableEq

/-- The five OS handles the slave adopts from the queue and heap
headers. -/
structure SlaveHandles where
  master_event : Nat
  master_mutex : Nat
  slave_event : Nat
  slave_mutex : Nat
  heap_mutex : Nat
deriving DecidableEq

/-- The handles stored in the segment's queue and heap headers. -/
def inheritedHandles (seg : SegmentView) : SlaveHandles :=
  { master_event := seg.master_queue.event_handle,
    master_mutex := seg.master_queue.mutex_handle,
    slave_event := seg.slave_queue.event_handle,
    slave_mutex := seg.slave_queue.mutex_handle,
    heap_mutex := seg.heap.mutex_handle }

/-- `IPCClient::IPCClient(slave_tag, ...)` (ipc_client.cpp lines 179-238),
the validation sequence on the mapped view.  C++ types: the header fields
and queue/heap fields are `uint32_t`, `sizeof(...)` is `size_t`, so
`header->size - sizeof(ipc::Queue)` is 64-bit arithmetic (`u64sub`) while
`header->size - header->master_queue_offset` wraps at 32 bits (`u32sub`).
The `MapViewOfFile` call is OS state outside the embedding; the model
starts from the mapped view. -/
def slave_attach (seg : SegmentView) (shmem_size : Nat) :
    Except ClientError SlaveHandles :=
  if shmem_size < sizeofSharedMemoryHeader then
    .error (.ipcError "wrong shared memory size")
  else if seg.header.magicOk = false then
    .error (.ipcError "bad header in shared memory")
  else if seg.header.size ≠ shmem_size then
    .error (.ipcError "wrong shared memory size")
  else if seg.header.version ≠ VERSION then
    .error (.ipcError "IPC version mismatch")
  else if seg.header.slave_queue_offset > u64sub seg.header.size sizeofQueue ∨
          seg.header.master_queue_offset > u64sub seg.header.size sizeofQueue ∨
          seg.header.heap_offset > u64sub seg.header.size sizeofHeap then
    .error (.ipcError "pointer out of bounds")
  else if seg.master_queue.magicOk = false then
    .error (.ipcError "bad queue header")
  else if seg.master_queue.size > u32sub seg.header.size seg.header.master_queue_offset ∨
          seg.master_queue.buffer_offset > u64sub seg.master_queue.size sizeofCommand then
    .error (.ipcError "pointer out of bounds")
  else if seg.slave_queue.magicOk = false then
    .error (.ipcError "bad queue header")
  else if seg.slave_queue.size > u32sub seg.header.size seg.header.slave_queue_offset ∨
          seg.slave_queue.buffer_offset > u64sub seg.slave_queue.size sizeofCommand then
    .error (.ipcError "pointer out of bounds")
  else if seg.heap.magicOk = false then
    .error (.ipcError "bad heap header")
  else if seg.heap.size > u32sub seg.header.size seg.header.heap_offset ∨
          seg.heap.buffer_offset > u64sub seg.heap.size sizeofHeapNode then
    .error (.ipcError "pointer out of bounds")
  else
    .ok (inheritedHandles seg)

/-- The validation list as the claim states it: header magic, header size
equal to the mapping size, protocol version, child-structure offsets in
bounds, queue and heap magics, and in-bounds buffer offsets. -/
def slaveSegmentValid (seg : SegmentView) (shmem_size : Nat) : Prop :=
  sizeofSharedMemoryHeader ≤ shmem_size ∧
  seg.header.magicOk = true ∧
  seg.header.size = shmem_size ∧
  seg.header.version = VERSION ∧
  seg.header.slave_queue_offset ≤ u64sub seg.header.size sizeofQueue ∧
  seg.header.master_queue_offset ≤ u64sub seg.header.size sizeofQueue ∧
  seg.header.heap_offset ≤ u64sub seg.header.size sizeofHeap ∧
  seg.master_queue.magicOk = true ∧
  seg.master_queue.size ≤ u32sub seg.header.size seg.header.master_queue_offset ∧
  seg.master_queue.buffer_offset ≤ u64sub seg.master_queue.size sizeofCommand ∧
  seg.slave_queue.magicOk = true ∧
  seg.slave_queue.size ≤ u32sub seg.header.size seg.header.slave_queue_offset ∧
  seg.slave_queue.buffer_offset ≤ u64sub seg.slave_queue.size sizeofCommand ∧
  seg.heap.magicOk = true ∧
  seg.heap.size ≤ u32sub seg.header.size seg.header.heap_offset ∧
  seg.heap.buffer_offset ≤ u64sub seg.heap.size sizeofHeapNode

instance (seg : SegmentView) (shmem_size : Nat) :
    Decidable (slaveSegmentValid seg shmem_size) := by
  unfold slaveSegmentValid; infer_instance

inductive SlaveOutcome where
  | usageExit
  | abnormalExit
  | running (h : SlaveHandles)
deriving DecidableEq

/-- `wmain` of the slave process (main.cpp lines 144-171): reject a wrong
argument count with exit code 1; a failed `OpenProcess` or a throwing
constructor propagates out of `wmain` (the `catch` block rethrows), so
the process dies with an abnormal nonzero exit; otherwise the session
runs with the attached client.  Argument parsing and the run loop are
outside the model. -/
def wmain_model (argc : Nat) (parentOpenOk : Bool) (seg : SegmentView)
    (shmem_size : Nat) : SlaveOutcome :=
  if argc ≠ 4 then .usageExit
  else if parentOpenOk = false then .abnormalExit
  else
    match slave_attach seg shmem_size with
    | .error _ => .abnormalExit
    | .ok h => .running h

/-- A concretely valid mapped segment. -/
def demoSegment : SegmentView :=
  { header := { magicOk := true, size := 65536, version := VERSION,
                master_queue_offset := 24, slave_queue_offset := 56,
                heap_offset := 88 },
    master_queue := { magicOk := true, size := 4096, buffer_offset := 32,
                      event_handle := 1, mutex_handle := 2 },
    slave_queue := { magicOk := true, size := 4096, buffer_offset := 32,
                     event_handle := 3, mutex_handle := 4 },
    heap := { magicOk := true, size := 65424, buffer_offset := 24,
              mutex_handle := 5 } }

/-! ## Command codec (`src/ipc/ipc_commands.cpp`, `src/ipc/video_types.cpp`,
and the parse loop of `IPCClient::recv_thread_func` in
`src/ipc/ipc_client.cpp`).  Buffers are little-endian byte lists; multi-byte
fields are laid out as the spec's on-wire layout section gives them
(`ipc_types.h` with the raw structs is not part of `src/`). -/

/-- The four little-endian bytes of a 32-bit value. -/
def w32 (n : Nat) : List Nat :=
  [n % 256, n / 256 % 256, n / 65536 % 256, n / 16777216 % 256]

/-- A 32-bit value from four bytes. -/
def u32v (b0 b1 b2 b3 : Nat) : Nat := b0 + 256 * b1 + 65536 * b2 + 16777216 * b3

/-- The eight little-endian bytes of a 64-bit value. -/
def w64 (n : Nat) : List Nat :=
  [n % 256, n / 256 % 256, n / 65536 % 256, n / 16777216 % 256,
   n / 4294967296 % 256, n / 1099511627776 % 256, n / 281474976710656 % 256,
   n / 72057594037927936 % 256]

/-- A 64-bit value from eight bytes. -/
def u64v (b0 b1 b2 b3 b4 b5 b6 b7 : Nat) : Nat :=
  b0 + 256 * b1 + 65536 * b2 + 16777216 * b3 + 4294967296 * b4 +
  1099511627776 * b5 + 281474976710656 * b6 + 72057594037927936 * b7

/-- `ipc::VideoInfo` (video_types.h): five 32-bit fields and three 8-bit
fields (one byte of tail padding to 4-byte alignment).  Integer fields
hold the 32-bit (resp. 8-bit) bit patterns. -/
structure VideoInfo where
  width : Nat
  height : Nat
  fps_num : Nat
  fps_den : Nat
  num_frames : Nat
  color_family : Nat
  subsample_w : Nat
  subsample_h : Nat
deriving DecidableEq

/-- `ipc::VideoFrameRequest` (video_types.h). -/
structure VideoFrameRequest where
  clip_id : Nat
  frame_number : Nat
deriving DecidableEq

/-- `ipc::VideoFrame` (video_types.h): request, heap offset, four strides
and four heights (44 bytes). -/
structure VideoFrame where
  request : VideoFrameRequest
  heap_offset : Nat
  stride0 : Nat
  stride1 : Nat
  stride2 : Nat
  stride3 : Nat
  height0 : Nat
  height1 : Nat
  height2 : Nat
  height3 : Nat
deriving DecidableEq

/-- `ipc::Value` (video_types.h): a 40-byte tagged union (`alignas(8)`,
type byte at offset 0, union at offset 8).  `intVal`/`floatVal` hold the
64-bit bit pattern the union's bytes carry (`serialize`/`deserialize`
copy the struct, never interpreting it); `raw` stands for a copied value
whose tag is none of the five known ones. -/
inductive Value where
  | clip (clip_id : Nat) (vi : VideoInfo)
  | boolVal (b : Nat)
  | intVal (i : Nat)
  | floatVal (f : Nat)
  | stringVal (s : Nat)
  | raw (t : Nat)
deriving DecidableEq

/-- The 24 bytes of a `VideoInfo` (tail byte padding). -/
def encodeVideoInfo (vi : VideoInfo) : List Nat :=
  w32 vi.width ++ (w32 vi.height ++ (w32 vi.fps_num ++ (w32 vi.fps_den ++
    (w32 vi.num_frames ++
     [vi.color_family % 256, vi.subsample_w % 256, vi.subsample_h % 256, 0]))))

/-- The 40 bytes of a `Value` as `serialize_internal` memcpys them (the
padding bytes are taken as zero; they are never read back). -/
def encodeValue : Value → List Nat
  | .clip clip_id vi =>
      99 :: 0 :: 0 :: 0 :: 0 :: 0 :: 0 :: 0 ::
        (w32 clip_id ++ (encodeVideoInfo vi ++ [0, 0, 0, 0]))
  | .boolVal b => [98, 0, 0, 0, 0, 0, 0, 0, b % 256, 0, 0, 0, 0, 0, 0, 0, 0, 0, 0, 0, 0, 0, 0, 0, 0, 0, 0, 0, 0, 0, 0, 0, 0, 0, 0, 0, 0, 0, 0, 0]
  | .intVal i => 105 :: 0 :: 0 :: 0 :: 0 :: 0 :: 0 :: 0 :: (w64 i ++ [0, 0, 0, 0, 0, 0, 0, 0, 0, 0, 0, 0, 0, 0, 0, 0, 0, 0, 0, 0, 0, 0, 0, 0])
  | .floatVal f => 102 :: 0 :: 0 :: 0 :: 0 :: 0 :: 0 :: 0 :: (w64 f ++ [0, 0, 0, 0, 0, 0, 0, 0, 0, 0, 0, 0, 0, 0, 0, 0, 0, 0, 0, 0, 0, 0, 0, 0])
  | .stringVal s => 115 :: 0 :: 0 :: 0 :: 0 :: 0 :: 0 :: 0 :: (w32 s ++ [0, 0, 0, 0, 0, 0, 0, 0, 0, 0, 0, 0, 0, 0, 0, 0, 0, 0, 0, 0, 0, 0, 0, 0, 0, 0, 0, 0])
  | .raw t => t % 256 :: [0, 0, 0, 0, 0, 0, 0, 0, 0, 0, 0, 0, 0, 0, 0, 0, 0, 0, 0, 0, 0, 0, 0, 0, 0, 0, 0, 0, 0, 0, 0, 0, 0, 0, 0, 0, 0, 0, 0]

/-- Reading a copied `Value` back from its 40 bytes: the tag byte selects
which union field is meaningful (offset 8).  Fewer than 40 bytes would be
an out-of-bounds read in the source (which performs none of its own
bounds checks here); the model returns a junk value. -/
def decodeValue (q : List Nat) : Value :=
  match q with
  | t :: _ :: _ :: _ :: _ :: _ :: _ :: _ ::
    u0 :: u1 :: u2 :: u3 :: u4 :: u5 :: u6 :: u7 ::
    v0 :: v1 :: v2 :: v3 :: v4 :: v5 :: v6 :: v7 :: v8 :: v9 :: v10 :: v11 ::
    v12 :: v13 :: v14 :: v15 :: v16 :: v17 :: v18 :: _ :: _ :: _ :: _ :: _ :: _ =>
    if t = 99 then
      .clip (u32v u0 u1 u2 u3)
        { width := u32v u4 u5 u6 u7, height := u32v v0 v1 v2 v3,
          fps_num := u32v v4 v5 v6 v7, fps_den := u32v v8 v9 v10 v11,
          num_frames := u32v v12 v13 v14 v15,
          color_family := v16, subsample_w := v17, subsample_h := v18 }
    else if t = 98 then .boolVal u0
    else if t = 105 then .intVal (u64v u0 u1 u2 u3 u4 u5 u6 u7)
    else if t = 102 then .floatVal (u64v u0 u1 u2 u3 u4 u5 u6 u7)
    else if t = 115 then .stringVal (u32v u0 u1 u2 u3)
    else .raw t
  | _ => .raw 0

/-- `serialize_chars<char>` payload bytes: each `char` is one byte. -/
def encodeStrBytes : List Nat → List Nat
  | [] => []
  | c :: cs => c % 256 :: encodeStrBytes cs

/-- `serialize_chars<wchar_t>` payload bytes: each `wchar_t` is two
little-endian bytes. -/
def encodeWStrBytes : List Nat → List Nat
  | [] => []
  | c :: cs => c % 256 :: c / 256 % 256 :: encodeWStrBytes cs

/-- Reading `len` 2-byte code units back. -/
def decodeWChars : Nat → List Nat → List Nat
  | 0, _ => []
  | n + 1, c0 :: c1 :: rest => (c0 + 256 * c1) :: decodeWChars n rest
  | _ + 1, _ => []

/-- `ipc::serialize_str` with an explicit length (`video_types.cpp`
`serialize_chars<char>`): u32 length, the bytes, a NUL; an over-long
length is clamped to zero.  `LEN_MAX<char> = (UINT32_MAX - 4 - 1) / 1`. -/
def serialize_str (s : List Nat) : List Nat :=
  if s.length > 4294967290 then [0, 0, 0, 0, 0]
  else w32 s.length ++ (encodeStrBytes s ++ [0])

/-- `ipc::serialize_wstr` with an explicit length
(`serialize_chars<wchar_t>`); `LEN_MAX<wchar_t> = (UINT32_MAX - 4 - 2) / 2`. -/
def serialize_wstr (s : List Nat) : List Nat :=
  if s.length > 2147483644 then [0, 0, 0, 0, 0, 0]
  else w32 s.length ++ (encodeWStrBytes s ++ [0, 0])

/-- `ipc::deserialize_str` (`deserialize_chars<char>`): fail on a buffer
shorter than length prefix plus NUL, an over-long declared length, or a
buffer shorter than the declared content; else the content bytes. -/
def deserialize_str (bs : List Nat) : Option (List Nat) :=
  match bs with
  | b0 :: b1 :: b2 :: b3 :: rest =>
    if rest.length < 1 then none
    else if u32v b0 b1 b2 b3 > 4294967290 then none
    else if rest.length < u32v b0 b1 b2 b3 + 1 then none
    else some (rest.take (u32v b0 b1 b2 b3))
  | _ => none

/-- `ipc::deserialize_wstr` (`deserialize_chars<wchar_t>`). -/
def deserialize_wstr (bs : List Nat) : Option (List Nat) :=
  match bs with
  | b0 :: b1 :: b2 :: b3 :: rest =>
    if rest.length < 2 then none
    else if u32v b0 b1 b2 b3 > 2147483644 then none
    else if rest.length < 2 * u32v b0 b1 b2 b3 + 2 then none
    else some (decodeWChars (u32v b0 b1 b2 b3) rest)
  | _ => none

/-- The ten command kinds (`ipc_client::CommandType`) with their
payloads. -/
inductive Cmd where
  | ack
  | err
  | setLogFile (arg : List Nat)
  | loadAvisynth (arg : List Nat)
  | newScriptEnv
  | getScriptVar (arg : List Nat)
  | setScriptVar (nm : List Nat) (value : Value)
  | evalScript (offset : Nat)
  | getFrame (req : VideoFrameRequest)
  | setFrame (frame : VideoFrame)
deriving DecidableEq

/-- An `ipc_client::Command`: transaction id, response id, kind and
payload. -/
structure ClientCommand where
  transaction_id : Nat
  response_id : Nat
  cmd : Cmd
deriving DecidableEq

/-- `static_cast<int32_t>(type())`: the `CommandType` enumerator
values. -/
def typeTag : Cmd → Nat
  | .ack => 0
  | .err => 1
  | .setLogFile _ => 2
  | .loadAvisynth _ => 3
  | .newScriptEnv => 4
  | .getScriptVar _ => 5
  | .setScriptVar _ _ => 6
  | .evalScript _ => 7
  | .getFrame _ => 8
  | .setFrame _ => 9

/-- The alignment padding `CommandSetScriptVar::serialize_internal`
inserts between the name and the `Value` (`alignof(ipc::Value) = 8`);
the source leaves the pad bytes unwritten, the model takes zeros. -/
def padTo8 (n : Nat) : List Nat :=
  if n % 8 = 0 then [] else List.replicate (8 - n % 8) 0

/-- `serialize_internal` of each command kind. -/
def payloadBytes : Cmd → List Nat
  | .ack => []
  | .err => []
  | .setLogFile s => serialize_wstr s
  | .loadAvisynth s => serialize_wstr s
  | .newScriptEnv => []
  | .getScriptVar s => serialize_str s
  | .setScriptVar nm v =>
      serialize_str nm ++ (padTo8 (serialize_str nm).length ++ encodeValue v)
  | .evalScript offset => w32 offset
  | .getFrame r => w32 r.clip_id ++ w32 r.frame_number
  | .setFrame f =>
      w32 f.request.clip_id ++ (w32 f.request.frame_number ++ (w32 f.heap_offset ++
        (w32 f.stride0 ++ (w32 f.stride1 ++ (w32 f.stride2 ++ (w32 f.stride3 ++
          (w32 f.height0 ++ (w32 f.height1 ++ (w32 f.height2 ++ w32 f.height3)))))))))

/-- The 20-byte `ipc::Command` envelope followed by the payload: magic
`"cmdx"`, u32 total size, u32 transaction id, u32 response id, i32
type. -/
def mkEnvelope (sz tid rid tag : Nat) (p : List Nat) : List Nat :=
  99 :: 109 :: 100 :: 120 ::
    (w32 sz ++ (w32 tid ++ (w32 rid ++ (w32 tag ++ p))))

/-- `Command::serialize` plus `serialized_size` (ipc_commands.cpp lines
173-192): the envelope with the total size truncated to u32, then the
kind's payload. -/
def serialize_command (c : ClientCommand) : List Nat :=
  mkEnvelope ((20 + (payloadBytes c.cmd).length) % 4294967296)
    c.transaction_id c.response_id (typeTag c.cmd) (payloadBytes c.cmd)

inductive CodecErr where
  | assertFail
  | bufferOverrun
  | shortBuffer
deriving DecidableEq

/-- The per-kind payload parsing of `deserialize_command`
(ipc_commands.cpp lines 207-240 and the `deserialize_internal`
overloads; the POD reads fail exactly when the payload is shorter than
the POD).  An unknown tag falls through to the null command. -/
def parsePayload (tag tid rid : Nat) (p : List Nat) :
    Except CodecErr (Option ClientCommand) :=
  if tag = 0 then .ok (some ⟨tid, rid, .ack⟩)
  else if tag = 1 then .ok (some ⟨tid, rid, .err⟩)
  else if tag = 2 then
    match deserialize_wstr p with
    | none => .error .bufferOverrun
    | some s => .ok (some ⟨tid, rid, .setLogFile s⟩)
  else if tag = 3 then
    match deserialize_wstr p with
    | none => .error .bufferOverrun
    | some s => .ok (some ⟨tid, rid, .loadAvisynth s⟩)
  else if tag = 4 then .ok (some ⟨tid, rid, .newScriptEnv⟩)
  else if tag = 5 then
    match deserialize_str p with
    | none => .error .bufferOverrun
    | some s => .ok (some ⟨tid, rid, .getScriptVar s⟩)
  else if tag = 6 then
    match deserialize_str p with
    | none => .error .bufferOverrun
    | some nm =>
      if (5 + nm.length) % 8 = 0 then
        .ok (some ⟨tid, rid, .setScriptVar nm (decodeValue (p.drop (5 + nm.length)))⟩)
      else if 8 - (5 + nm.length) % 8 > p.length - (5 + nm.length) then
        .error .bufferOverrun
      else
        .ok (some ⟨tid, rid,
          .setScriptVar nm
            (decodeValue (p.drop (5 + nm.length + (8 - (5 + nm.length) % 8))))⟩)
  else if tag = 7 then
    match p with
    | a0 :: a1 :: a2 :: a3 :: _ => .ok (some ⟨tid, rid, .evalScript (u32v a0 a1 a2 a3)⟩)
    | _ => .error .bufferOverrun
  else if tag = 8 then
    match p with
    | a0 :: a1 :: a2 :: a3 :: b0 :: b1 :: b2 :: b3 :: _ =>
      .ok (some ⟨tid, rid, .getFrame ⟨u32v a0 a1 a2 a3, u32v b0 b1 b2 b3⟩⟩)
    | _ => .error .bufferOverrun
  else if tag = 9 then
    match p with
    | a0 :: a1 :: a2 :: a3 :: b0 :: b1 :: b2 :: b3 :: c0 :: c1 :: c2 :: c3 ::
      d0 :: d1 :: d2 :: d3 :: e0 :: e1 :: e2 :: e3 :: f0 :: f1 :: f2 :: f3 ::
      g0 :: g1 :: g2 :: g3 :: h0 :: h1 :: h2 :: h3 :: i0 :: i1 :: i2 :: i3 ::
      j0 :: j1 :: j2 :: j3 :: k0 :: k1 :: k2 :: k3 :: _ =>
      .ok (some ⟨tid, rid, .setFrame
        ⟨⟨u32v a0 a1 a2 a3, u32v b0 b1 b2 b3⟩, u32v c0 c1 c2 c3,
          u32v d0 d1 d2 d3, u32v e0 e1 e2 e3, u32v f0 f1 f2 f3, u32v g0 g1 g2 g3,
          u32v h0 h1 h2 h3, u32v i0 i1 i2 i3, u32v j0 j1 j2 j3, u32v k0 k1 k2 k3⟩⟩)
    | _ => .error .bufferOverrun
  else .ok none

/-- `deserialize_command` (ipc_commands.cpp lines 195-246): assert the
envelope magic, fail on a declared size below the envelope size, then
parse the payload (the declared size bounds it).  The receive loop
guarantees at least the 20 envelope bytes are mapped; on a shorter
buffer the model reports `shortBuffer`. -/
def deserialize_command (bs : List Nat) : Except CodecErr (Option ClientCommand) :=
  match bs with
  | m0 :: m1 :: m2 :: m3 :: s0 :: s1 :: s2 :: s3 :: t0 :: t1 :: t2 :: t3 ::
    r0 :: r1 :: r2 :: r3 :: y0 :: y1 :: y2 :: y3 :: rest =>
    if m0 = 99 ∧ m1 = 109 ∧ m2 = 100 ∧ m3 = 120 then
      if u32v s0 s1 s2 s3 < 20 then .error .bufferOverrun
      else
        parsePayload (u32v y0 y1 y2 y3) (u32v t0 t1 t2 t3) (u32v r0 r1 r2 r3)
          (rest.take (u32v s0 s1 s2 s3 - 20))
    else .error .assertFail
  | _ => .error .shortBuffer

inductive RecvErr where
  | badHeader
  | outOfBounds
  | codec (e : CodecErr)
  | fuelOut
deriving DecidableEq

/-- Whether the four magic bytes spell `"cmdx"`. -/
def magicOkBytes : List Nat → Bool
  | m0 :: m1 :: m2 :: m3 :: _ =>
      decide (m0 = 99 ∧ m1 = 109 ∧ m2 = 100 ∧ m3 = 120)
  | _ => false

/-- The envelope's declared total size field. -/
def declaredSize : List Nat → Nat
  | _ :: _ :: _ :: _ :: s0 :: s1 :: s2 :: s3 :: _ => u32v s0 s1 s2 s3
  | _ => 0

/-- The command-parsing loop of `IPCClient::recv_thread_func`
(ipc_client.cpp lines 286-304): while bytes remain, require a whole
envelope, the magic, and the declared size within the remaining bytes;
deserialize (exceptions propagate), advance by the declared size, and a
null command is skipped (`continue`).  The collected entries are the
deserialized commands in order (`none` for skipped ones). -/
def recvLoop : Nat → List Nat → Except RecvErr (List (Option ClientCommand))
  | _, [] => .ok []
  | 0, _ :: _ => .error .fuelOut
  | fuel + 1, b :: bs =>
    if (b :: bs).length < 20 then .error .outOfBounds
    else if magicOkBytes (b :: bs) = false then .error .badHeader
    else if declaredSize (b :: bs) > (b :: bs).length then .error .outOfBounds
    else
      match deserialize_command (b :: bs) with
      | .error e => .error (.codec e)
      | .ok oc =>
        match recvLoop fuel ((b :: bs).drop (declaredSize (b :: bs))) with
        | .error e => .error e
        | .ok l => .ok (oc :: l)

/-- Valid narrow-string payload: byte-sized code units, length within
both `LEN_MAX<char>` and the 32-bit total-size budget. -/
def charsValid (s : List Nat) : Prop :=
  (∀ c ∈ s, c < 256) ∧ s.length ≤ 4000000000

instance (s : List Nat) : Decidable (charsValid s) := by
  unfold charsValid; infer_instance

/-- Valid wide-string payload. -/
def wcharsValid (s : List Nat) : Prop :=
  (∀ c ∈ s, c < 65536) ∧ s.length ≤ 2000000000

instance (s : List Nat) : Decidable (wcharsValid s) := by
  unfold wcharsValid; infer_instance

/-- Valid `Value` payload: a known tag and fields within their C++
types' ranges. -/
def Value.valid : Value → Prop
  | .clip clip_id vi =>
      clip_id < 4294967296 ∧ vi.width < 4294967296 ∧ vi.height < 4294967296 ∧
      vi.fps_num < 4294967296 ∧ vi.fps_den < 4294967296 ∧
      vi.num_frames < 4294967296 ∧ vi.color_family < 256 ∧
      vi.subsample_w < 256 ∧ vi.subsample_h < 256
  | .boolVal b => b < 256
  | .intVal i => i < 18446744073709551616
  | .floatVal f => f < 18446744073709551616
  | .stringVal s => s < 4294967296
  | .raw _ => False

instance : (v : Value) → Decidable v.valid := fun v => by
  cases v <;> simp only [Value.valid] <;> infer_instance

/-- Valid payload per command kind: field bit patterns within their C++
types' ranges. -/
def Cmd.valid : Cmd → Prop
  | .ack => True
  | .err => True
  | .setLogFile s => wcharsValid s
  | .loadAvisynth s => wcharsValid s
  | .newScriptEnv => True
  | .getScriptVar s => charsValid s
  | .setScriptVar nm v => charsValid nm ∧ v.valid
  | .evalScript offset => offset < 4294967296
  | .getFrame r => r.clip_id < 4294967296 ∧ r.frame_number < 4294967296
  | .setFrame f =>
      f.request.clip_id < 4294967296 ∧ f.request.frame_number < 4294967296 ∧
      f.heap_offset < 4294967296 ∧ f.stride0 < 4294967296 ∧
      f.stride1 < 4294967296 ∧ f.stride2 < 4294967296 ∧ f.stride3 < 4294967296 ∧
      f.height0 < 4294967296 ∧ f.height1 < 4294967296 ∧ f.height2 < 4294967296 ∧
      f.height3 < 4294967296

instance : (c : Cmd) → Decidable c.valid := fun c => by
  cases c <;> simp only [Cmd.valid] <;> infer_instance

/-- A valid command: u32 ids and a valid payload. -/
def ClientCommand.valid (c : ClientCommand) : Prop :=
  c.transaction_id < 4294967296 ∧ c.response_id < 4294967296 ∧ c.cmd.valid

instance (c : ClientCommand) : Decidable c.valid := by
  unfold ClientCommand.valid; infer_instance

/-! ### Theorems -/

theorem u32add_eq {a b : Nat} (h : a + b < U32) : u32add a b = a + b := by
  simpa [u32add] using Nat.mod_eq_of_lt h

theorem u32sub_eq {a b : Nat} (hb : b ≤ a) (ha : a < U32) : u32sub a b = a - b := by
  unfold u32sub
  have h1 : a + U32 - b = (a - b) + U32 := by omega
  rw [h1, Nat.add_mod_right]
  exact Nat.mod_eq_of_lt (by omega)

theorem u64sub_eq {a b : Nat} (hb : b ≤ a) (ha : a < U64) : u64sub a b = a - b := by
  unfold u64sub
  have h1 : a + U64 - b = (a - b) + U64 := by omega
  rw [h1, Nat.add_mod_right]
  exact Nat.mod_eq_of_lt (by omega)

theorem capacity_lt {q : Queue} (h : q.buffer_offset ≤ q.size) (h2 : q.size < U32) :
    q.capacity = q.size - q.buffer_offset ∧ q.capacity < U32 := by
  have := u32sub_eq (a := q.size) (b := q.buffer_offset) h h2
  constructor
  · simpa [Queue.capacity] using this
  · rw [Queue.capacity, this]; omega

/-- From `x % cap = u % cap` and `u ≤ x`, the difference is a multiple of
`cap` and hence vanishes modulo `cap`. -/
theorem sub_mod_zero {cap x u : Nat} (h : x % cap = u % cap)
    (hux : u ≤ x) : (x - u) % cap = 0 := by
  have hmod : Nat.ModEq cap u x := h.symm
  obtain ⟨c, hc⟩ := (Nat.modEq_iff_dvd' hux).mp hmod
  rw [hc]
  exact Nat.mul_mod_right cap c

/-- Frame facts about `queue_write`: which fields it writes and with what. -/
theorem queue_write_fields (q : Queue) (buf : List Nat) :
    (queue_write q buf).size = q.size ∧
    (queue_write q buf).buffer_offset = q.buffer_offset ∧
    (queue_write q buf).read_pos = q.read_pos ∧
    (queue_write q buf).buffer_usage = u32add q.buffer_usage buf.length ∧
    (queue_write q buf).write_pos =
      (if buf.length ≤ u32sub q.capacity q.write_pos
       then u32add q.write_pos buf.length
       else u32sub buf.length (u32sub q.capacity q.write_pos)) := by
  unfold queue_write
  by_cases hb : buf.length ≤ u32sub q.capacity q.write_pos <;> simp [hb]

/-- `queue_write` preserves the machine invariant and has the expected
effect on the header fields, under the asserted precondition. -/
theorem queue_write_wf (q : Queue) (buf : List Nat) (hwf : q.wf)
    (hpre : buf.length ≤ q.capacity - q.buffer_usage) :
    (queue_write q buf).wf ∧
    (queue_write q buf).capacity = q.capacity ∧
    (queue_write q buf).read_pos = q.read_pos ∧
    (queue_write q buf).buffer_usage = q.buffer_usage + buf.length := by
  obtain ⟨hbo, hsz, hcap0, hu, hr, hw, hmod⟩ := hwf
  obtain ⟨hcapeq, hcaplt⟩ := capacity_lt hbo hsz
  obtain ⟨e1, e2, e3, e4, e5⟩ := queue_write_fields q buf
  have ecap : (queue_write q buf).capacity = q.capacity := by
    rw [Queue.capacity, Queue.capacity, e1, e2]
  set cap := q.capacity
  set s := buf.length
  set u := q.buffer_usage
  set r := q.read_pos
  set w := q.write_pos
  have hscap : s ≤ cap := le_trans hpre (Nat.sub_le _ _)
  have husage : u32add u s = u + s := u32add_eq (by omega)
  have hsubcw : u32sub cap w = cap - w := u32sub_eq hw hcaplt
  have hwp : (queue_write q buf).write_pos ≤ cap ∧
      ((queue_write q buf).write_pos + cap - r) % cap = (u + s) % cap := by
    rw [e5, hsubcw]
    by_cases hb : s ≤ cap - w
    · rw [if_pos hb]
      have hws : u32add w s = w + s := u32add_eq (by omega)
      rw [hws]
      refine ⟨by omega, ?_⟩
      have h1 : w + s + cap - r = (w + cap - r) + s := by omega
      rw [h1, Nat.add_mod, hmod, ← Nat.add_mod]
    · rw [if_neg hb]
      push_neg at hb
      have hss : u32sub s (cap - w) = s - (cap - w) := u32sub_eq (by omega) (by omega)
      rw [hss]
      refine ⟨by omega, ?_⟩
      obtain ⟨y, hy⟩ : ∃ y, (w + cap - r) + s = cap + y := ⟨(w + cap - r) + s - cap, by omega⟩
      have h1 : s - (cap - w) + cap - r = y := by omega
      rw [h1]
      have h2 : y % cap = (cap + y) % cap := (Nat.add_mod_left cap y).symm
      rw [h2, ← hy, Nat.add_mod, hmod, ← Nat.add_mod]
  refine ⟨⟨?_, ?_, ?_, ?_, ?_, ?_, ?_⟩, ecap, e3, ?_⟩
  · rw [e1, e2]; exact hbo
  · rw [e1]; exact hsz
  · rw [ecap]; exact hcap0
  · rw [e4, ecap, husage]; omega
  · rw [e3, ecap]; exact hr
  · rw [ecap]; exact hwp.1
  · rw [ecap, e3, e4, husage]; exact hwp.2
  · rw [e4, husage]

/-- Frame facts about `queue_read`: which fields it writes and with what. -/
theorem queue_read_fields (q : Queue) :
    (queue_read q).1.size = q.size ∧
    (queue_read q).1.buffer_offset = q.buffer_offset ∧
    (queue_read q).1.buffer_usage = 0 ∧
    (queue_read q).1.write_pos = q.write_pos ∧
    (queue_read q).1.data = q.data ∧
    (queue_read q).1.read_pos =
      (if q.buffer_usage ≤ u32sub q.capacity q.read_pos
       then u32add q.read_pos q.buffer_usage
       else u32sub q.buffer_usage (u32sub q.capacity q.read_pos)) := by
  unfold queue_read
  by_cases hb : q.buffer_usage ≤ u32sub q.capacity q.read_pos <;> simp [hb]

/-- `queue_read` preserves the machine invariant, empties the queue and
leaves the buffer and write position untouched. -/
theorem queue_read_wf (q : Queue) (hwf : q.wf) :
    (queue_read q).1.wf ∧
    (queue_read q).1.capacity = q.capacity ∧
    (queue_read q).1.buffer_usage = 0 ∧
    (queue_read q).1.write_pos = q.write_pos ∧
    (queue_read q).1.data = q.data := by
  obtain ⟨hbo, hsz, hcap0, hu, hr, hw, hmod⟩ := hwf
  obtain ⟨hcapeq, hcaplt⟩ := capacity_lt hbo hsz
  obtain ⟨e1, e2, e3, e4, e5, e6⟩ := queue_read_fields q
  have ecap : (queue_read q).1.capacity = q.capacity := by
    rw [Queue.capacity, Queue.capacity, e1, e2]
  set cap := q.capacity
  set u := q.buffer_usage
  set r := q.read_pos
  set w := q.write_pos
  have hsubcr : u32sub cap r = cap - r := u32sub_eq hr hcaplt
  have hrp : (queue_read q).1.read_pos ≤ cap ∧
      (w + cap - (queue_read q).1.read_pos) % cap = 0 := by
    rw [e6, hsubcr]
    by_cases hb : u ≤ cap - r
    · rw [if_pos hb]
      have hru : u32add r u = r + u := u32add_eq (by omega)
      rw [hru]
      refine ⟨by omega, ?_⟩
      have hv : u ≤ w + cap - r := by omega
      have h1 : w + cap - (r + u) = (w + cap - r) - u := by omega
      rw [h1]
      exact sub_mod_zero hmod hv
    · rw [if_neg hb]
      push_neg at hb
      have hss : u32sub u (cap - r) = u - (cap - r) := u32sub_eq (by omega) (by omega)
      rw [hss]
      refine ⟨by omega, ?_⟩
      by_cases hv : u ≤ w + cap - r
      · have h1 : w + cap - (u - (cap - r)) = ((w + cap - r) - u) + cap := by omega
        rw [h1, Nat.add_mod_right]
        exact sub_mod_zero hmod hv
      · push_neg at hv
        have hucap : u = cap ∧ w + cap - r = 0 := by
          by_cases hu2 : u < cap
          · exfalso
            have hx : (w + cap - r) % cap = u := by rw [hmod, Nat.mod_eq_of_lt hu2]
            have := Nat.mod_le (w + cap - r) cap
            omega
          · have hueq : u = cap := by omega
            have h0 : (w + cap - r) % cap = 0 := by rw [hmod, hueq, Nat.mod_self]
            have hlt : w + cap - r < cap := by omega
            rw [Nat.mod_eq_of_lt hlt] at h0
            exact ⟨hueq, h0⟩
        have h3 : w + cap - (u - (cap - r)) = 0 := by omega
        simp [h3]
  refine ⟨⟨?_, ?_, ?_, ?_, ?_, ?_, ?_⟩, ecap, e3, e4, e5⟩
  · rw [e1, e2]; exact hbo
  · rw [e1]; exact hsz
  · rw [ecap]; exact hcap0
  · rw [e3]; omega
  · rw [ecap]; exact hrp.1
  · rw [e4, ecap]; exact hw
  · rw [ecap, e3, e4]
    rw [hrp.2]
    simp [Nat.zero_mod]

theorem getD_eq_of_lt {l : List Nat} {n : Nat} (h : n < l.length) : l.getD n 0 = l[n] := by
  rw [List.getD_eq_getElem?_getD, List.getElem?_eq_getElem h]
  rfl

theorem getD_take_of_lt (l : List Nat) (n m : Nat) (h : m < n) :
    (l.take n).getD m 0 = l.getD m 0 := by
  rw [List.getD_eq_getElem?_getD, List.getD_eq_getElem?_getD, List.getElem?_take, if_pos h]

theorem getD_drop (l : List Nat) (n m : Nat) : (l.drop n).getD m 0 = l.getD (n + m) 0 := by
  rw [List.getD_eq_getElem?_getD, List.getD_eq_getElem?_getD, List.getElem?_drop]

theorem map_range_getD (l : List Nat) :
    (List.range l.length).map (fun j => l.getD j 0) = l := by
  apply List.ext_getElem (by simp)
  intro n h1 h2
  simp only [List.getElem_map, List.getElem_range]
  exact getD_eq_of_lt h2

/-- The position/usage relation of `Queue.wf`, restated: the write position
is congruent to `read_pos + buffer_usage` modulo the capacity. -/
theorem wf_write_read_mod {q : Queue} (hwf : q.wf) :
    ∀ k, (q.write_pos + k) % q.capacity = (q.read_pos + (q.buffer_usage + k)) % q.capacity := by
  obtain ⟨hbo, hsz, hcap0, hu, hr, hw, hmod⟩ := hwf
  intro k
  set cap := q.capacity
  set u := q.buffer_usage
  set r := q.read_pos
  set w := q.write_pos
  have h1 : w + k + cap = (w + cap - r) + (r + k) := by omega
  calc (w + k) % cap = (w + k + cap) % cap := (Nat.add_mod_right _ _).symm
    _ = ((w + cap - r) + (r + k)) % cap := by rw [h1]
    _ = ((w + cap - r) % cap + (r + k) % cap) % cap := Nat.add_mod _ _ _
    _ = (u % cap + (r + k) % cap) % cap := by rw [hmod]
    _ = (u + (r + k)) % cap := (Nat.add_mod _ _ _).symm
    _ = (r + (u + k)) % cap := by ring_nf

/-- Residues `(read_pos + a) % capacity` are injective for `a < capacity`. -/
theorem ring_index_inj {q : Queue} (hcap0 : 0 < q.capacity) :
    ∀ a b, a < q.capacity → b < q.capacity →
      (q.read_pos + a) % q.capacity = (q.read_pos + b) % q.capacity → a = b := by
  intro a b ha hb h
  have h2 : Nat.ModEq q.capacity (q.read_pos + a) (q.read_pos + b) := h
  have h3 : Nat.ModEq q.capacity a b := Nat.ModEq.add_left_cancel' q.read_pos h2
  have h4 : a % q.capacity = b % q.capacity := h3
  rwa [Nat.mod_eq_of_lt ha, Nat.mod_eq_of_lt hb] at h4

/-- `queue_read` drains exactly the pending bytes. -/
theorem queue_read_out (q : Queue) (hwf : q.wf) : (queue_read q).2 = q.pending := by
  obtain ⟨hbo, hsz, hcap0, hu, hr, hw, hmod⟩ := hwf
  obtain ⟨hcapeq, hcaplt⟩ := capacity_lt hbo hsz
  have hsubcr : u32sub q.capacity q.read_pos = q.capacity - q.read_pos := u32sub_eq hr hcaplt
  unfold queue_read Queue.pending
  by_cases hb : q.buffer_usage ≤ u32sub q.capacity q.read_pos
  · rw [if_pos hb]
    rw [hsubcr] at hb
    show memSeg q.data q.read_pos q.buffer_usage = _
    unfold memSeg
    apply List.map_congr_left
    intro j hj
    have hj2 : j < q.buffer_usage := List.mem_range.mp hj
    rw [Nat.mod_eq_of_lt (by omega)]
  · rw [if_neg hb]
    rw [hsubcr] at hb
    push_neg at hb
    have hss : u32sub q.buffer_usage (u32sub q.capacity q.read_pos) =
        q.buffer_usage - (q.capacity - q.read_pos) := by
      rw [hsubcr]; exact u32sub_eq (by omega) (by omega)
    show memSeg q.data q.read_pos (u32sub q.capacity q.read_pos) ++
        memSeg q.data 0 (u32sub q.buffer_usage (u32sub q.capacity q.read_pos)) = _
    rw [hss, hsubcr]
    have hsplit : q.buffer_usage =
        (q.capacity - q.read_pos) + (q.buffer_usage - (q.capacity - q.read_pos)) := by omega
    conv_rhs => rw [hsplit]
    rw [List.range_add, List.map_append, List.map_map]
    congr 1
    · unfold memSeg
      apply List.map_congr_left
      intro j hj
      have hj2 : j < q.capacity - q.read_pos := List.mem_range.mp hj
      rw [Nat.mod_eq_of_lt (by omega)]
    · unfold memSeg
      apply List.map_congr_left
      intro j hj
      have hj2 : j < q.buffer_usage - (q.capacity - q.read_pos) := List.mem_range.mp hj
      simp only [Function.comp]
      have h1 : q.read_pos + (q.capacity - q.read_pos + j) = q.capacity + j := by omega
      rw [h1, Nat.add_mod_left, Nat.mod_eq_of_lt (by omega), Nat.zero_add]

/-- Content effect of `queue_write` on the ring, pointwise: positions
holding already-pending bytes are untouched, the `s` positions after them
receive the written bytes. -/
theorem queue_write_data (q : Queue) (buf : List Nat) (hwf : q.wf)
    (hpre : buf.length ≤ q.capacity - q.buffer_usage) :
    ∀ j, j < q.buffer_usage + buf.length →
      (queue_write q buf).data ((q.read_pos + j) % q.capacity) =
        (if j < q.buffer_usage then q.data ((q.read_pos + j) % q.capacity)
         else buf.getD (j - q.buffer_usage) 0) := by
  have hwr := wf_write_read_mod hwf
  obtain ⟨hbo, hsz, hcap0, hu, hr, hw, hmod⟩ := hwf
  obtain ⟨hcapeq, hcaplt⟩ := capacity_lt hbo hsz
  have hinj := ring_index_inj (q := q) hcap0
  set cap := q.capacity with hc
  set s := buf.length with hs
  set u := q.buffer_usage
  set r := q.read_pos
  set w := q.write_pos
  have hsubcw : u32sub cap w = cap - w := u32sub_eq hw hcaplt
  intro j hj
  have hi : (r + j) % cap < cap := Nat.mod_lt _ hcap0
  set i := (r + j) % cap with hidef
  unfold queue_write
  by_cases hb : s ≤ u32sub cap w
  · rw [if_pos hb]
    rw [hsubcw] at hb
    show memWrite q.data w buf i = _
    by_cases hju : j < u
    · rw [if_pos hju]
      unfold memWrite
      rw [if_neg]
      rintro ⟨h1, h2⟩
      set k := i - w with hk
      have hks : k < s := by omega
      have e1 : (w + k) % cap = i := by
        rw [Nat.mod_eq_of_lt (show w + k < cap by omega)]; omega
      have e2 : i = (r + (u + k)) % cap := by rw [← e1, hwr k]
      have : j = u + k := hinj j (u + k) (by omega) (by omega) (by rw [← hidef, e2])
      omega
    · rw [if_neg hju]
      set k := j - u with hk
      have hks : k < s := by omega
      have e1 : i = w + k := by
        rw [hidef]
        have h2 : u + k = j := by omega
        rw [← h2, ← hwr k, Nat.mod_eq_of_lt (show w + k < cap by omega)]
      unfold memWrite
      rw [if_pos ⟨by omega, by omega⟩]
      have h3 : i - w = j - u := by omega
      rw [h3]
  · rw [if_neg hb]
    rw [hsubcw] at hb
    push_neg at hb
    have hlen1 : (buf.take (u32sub cap w)).length = cap - w := by
      rw [hsubcw, List.length_take]
      omega
    have hlen2 : (buf.drop (u32sub cap w)).length = s - (cap - w) := by
      rw [hsubcw, List.length_drop]
    show memWrite (memWrite q.data w (buf.take (u32sub cap w))) 0 (buf.drop (u32sub cap w)) i = _
    by_cases hju : j < u
    · rw [if_pos hju]
      unfold memWrite
      rw [if_neg, if_neg]
      · rintro ⟨h1, h2⟩
        rw [hlen1] at h2
        set k := i - w with hk
        have hks : k < s := by omega
        have e1 : (w + k) % cap = i := by
          rw [Nat.mod_eq_of_lt (show w + k < cap by omega)]; omega
        have e2 : i = (r + (u + k)) % cap := by rw [← e1, hwr k]
        have : j = u + k := hinj j (u + k) (by omega) (by omega) (by rw [← hidef, e2])
        omega
      · rintro ⟨h1, h2⟩
        rw [hlen2] at h2
        set k := (cap - w) + i with hk
        have hks : k < s := by omega
        have e1 : (w + k) % cap = i := by
          have h3 : w + k = cap + i := by omega
          rw [h3, Nat.add_mod_left, Nat.mod_eq_of_lt (by omega)]
        have e2 : i = (r + (u + k)) % cap := by rw [← e1, hwr k]
        have : j = u + k := hinj j (u + k) (by omega) (by omega) (by rw [← hidef, e2])
        omega
    · rw [if_neg hju]
      set k := j - u with hk
      have hks : k < s := by omega
      by_cases hk2 : k < cap - w
      · have e1 : i = w + k := by
          rw [hidef]
          have h2 : u + k = j := by omega
          rw [← h2, ← hwr k, Nat.mod_eq_of_lt (show w + k < cap by omega)]
        unfold memWrite
        rw [if_neg (by rw [hlen2]; omega), if_pos (by rw [hlen1]; constructor <;> omega)]
        have h3 : i - w = k := by omega
        rw [h3, hsubcw, getD_take_of_lt _ _ _ hk2]
      · have e1 : i = k - (cap - w) := by
          rw [hidef]
          have h2 : u + k = j := by omega
          have h3 : w + k = cap + (k - (cap - w)) := by omega
          rw [← h2, ← hwr k, h3, Nat.add_mod_left, Nat.mod_eq_of_lt (by omega)]
        unfold memWrite
        rw [if_pos (by rw [hlen2]; constructor <;> omega)]
        rw [hsubcw, getD_drop]
        have h3 : cap - w + (i - 0) = k := by omega
        rw [h3]

/-- `queue_write` appends the written bytes to the pending content. -/
theorem queue_write_pending (q : Queue) (buf : List Nat) (hwf : q.wf)
    (hpre : buf.length ≤ q.capacity - q.buffer_usage) :
    (queue_write q buf).pending = q.pending ++ buf := by
  obtain ⟨hwf2, hcap, hrp, hus⟩ := queue_write_wf q buf hwf hpre
  have hdata := queue_write_data q buf hwf hpre
  obtain ⟨hbo, hsz, hcap0, hu, hr, hw, hmod⟩ := hwf
  unfold Queue.pending
  rw [hcap, hrp, hus, List.range_add, List.map_append, List.map_map]
  congr 1
  · apply List.map_congr_left
    intro j hj
    have hj2 : j < q.buffer_usage := List.mem_range.mp hj
    rw [hdata j (by omega), if_pos hj2]
  · have h2 : ∀ j ∈ List.range buf.length,
        ((fun j => (queue_write q buf).data ((q.read_pos + j) % q.capacity)) ∘
          (fun x => q.buffer_usage + x)) j = buf.getD j 0 := by
      intro j hj
      have hj2 : j < buf.length := List.mem_range.mp hj
      simp only [Function.comp]
      rw [hdata (q.buffer_usage + j) (by omega), if_neg (by omega)]
      congr 1
      omega
    rw [List.map_congr_left h2]
    exact map_range_getD buf

/-- A sequence of writes that fits in the free space preserves the
invariant and appends all messages, in order, to the pending content. -/
theorem writeAll_spec (msgs : List (List Nat)) :
    ∀ q : Queue, q.wf → (msgs.map List.length).sum ≤ q.capacity - q.buffer_usage →
    (writeAll q msgs).wf ∧ (writeAll q msgs).capacity = q.capacity ∧
    (writeAll q msgs).pending = q.pending ++ msgs.flatten ∧
    (writeAll q msgs).buffer_usage = q.buffer_usage + (msgs.map List.length).sum := by
  induction msgs with
  | nil =>
    intro q hwf hsum
    exact ⟨hwf, rfl, by simp [writeAll], by simp [writeAll]⟩
  | cons m ms ih =>
    intro q hwf hsum
    simp only [List.map_cons, List.sum_cons] at hsum
    have hpre : m.length ≤ q.capacity - q.buffer_usage := by omega
    obtain ⟨hwf2, hcap, hrp, hus⟩ := queue_write_wf q m hwf hpre
    have hpend := queue_write_pending q m hwf hpre
    have hsum2 : (ms.map List.length).sum ≤
        (queue_write q m).capacity - (queue_write q m).buffer_usage := by
      rw [hcap, hus]
      have := (hwf2.2.2.2.1)
      omega
    obtain ⟨h1, h2, h3, h4⟩ := ih (queue_write q m) hwf2 hsum2
    refine ⟨?_, ?_, ?_, ?_⟩
    · exact (by simpa [writeAll] using h1)
    · show (writeAll q (m :: ms)).capacity = q.capacity
      have heq : writeAll q (m :: ms) = writeAll (queue_write q m) ms := rfl
      rw [heq, h2, hcap]
    · have heq : writeAll q (m :: ms) = writeAll (queue_write q m) ms := rfl
      rw [heq, h3, hpend, List.flatten_cons, List.append_assoc]
    · have heq : writeAll q (m :: ms) = writeAll (queue_write q m) ms := rfl
      rw [heq, h4, hus]
      simp only [List.map_cons, List.sum_cons]
      omega

/-- C7 counterexample: the invariant as literally stated fails after a
write that exactly fills the queue — `(write_pos − read_pos) mod capacity`
becomes 0 while `buffer_usage` equals the capacity. -/
theorem queue_full_write_breaks_spec_invariant :
    Queue.specInvariant qEmpty4 ∧
    ([1, 2, 3, 4] : List Nat).length ≤ qEmpty4.capacity - qEmpty4.buffer_usage ∧
    ¬ Queue.specInvariant (queue_write qEmpty4 [1, 2, 3, 4]) := by decide

/-- C7 (amended): the queue invariants as the code maintains them —
`0 ≤ buffer_usage ≤ capacity`, `read_pos ≤ capacity`,
`write_pos ≤ capacity` and `(write_pos − read_pos) mod capacity =
buffer_usage mod capacity` — are preserved by every `queue_write` under
the precondition `size ≤ capacity − buffer_usage` and by every
`queue_read`, from any state satisfying them. -/
theorem queue_ops_preserve_wf_invariant (q : Queue) (buf : List Nat) (hwf : q.wf)
    (hpre : buf.length ≤ q.capacity - q.buffer_usage) :
    (queue_write q buf).wf ∧ (queue_read q).1.wf :=
  ⟨(queue_write_wf q buf hwf hpre).1, (queue_read_wf q hwf).1⟩

theorem queue_ops_preserve_wf_invariant_witness :
    (queue_write qEmpty4 [1, 2]).wf ∧ (queue_read qEmpty4).1.wf :=
  queue_ops_preserve_wf_invariant qEmpty4 [1, 2] (by decide) (by decide)

/-- C2 counterexample: a write of 8 bytes into an empty queue of capacity
4 violates the assertion yet still mutates the queue — `buffer_usage`
becomes 8, past the capacity; no overflow error exists anywhere in the
code. -/
theorem queue_overflow_write_changes_state :
    ¬ queue_write_assert qEmpty4 8 ∧
    (queue_write qEmpty4 [1, 2, 3, 4, 5, 6, 7, 8]).buffer_usage = 8 ∧
    qEmpty4.buffer_usage = 0 ∧ qEmpty4.capacity = 4 := by decide

/-- C2 (amended): `queue_write` has no `QueueOverflow` error path; its only
guard is the debug assertion `size ≤ capacity − buffer_usage`.  When the
write would exceed capacity the assertion fails, and the (release-mode)
write nevertheless proceeds, growing `buffer_usage` by `size` beyond the
capacity rather than leaving the queue unchanged. -/
theorem queue_write_overflow_no_error (q : Queue) (buf : List Nat) (hwf : q.wf)
    (hover : q.capacity - q.buffer_usage < buf.length)
    (hbnd : q.buffer_usage + buf.length < U32) :
    ¬ queue_write_assert q buf.length ∧
    (queue_write q buf).buffer_usage = q.buffer_usage + buf.length ∧
    q.capacity < (queue_write q buf).buffer_usage := by
  obtain ⟨hbo, hsz, hcap0, hu, hr, hw, hmod⟩ := hwf
  obtain ⟨hcapeq, hcaplt⟩ := capacity_lt hbo hsz
  obtain ⟨e1, e2, e3, e4, e5⟩ := queue_write_fields q buf
  have hsub : u32sub q.capacity q.buffer_usage = q.capacity - q.buffer_usage :=
    u32sub_eq hu hcaplt
  refine ⟨?_, ?_, ?_⟩
  · unfold queue_write_assert
    rw [hsub]
    omega
  · rw [e4, u32add_eq hbnd]
  · rw [e4, u32add_eq hbnd]
    omega

theorem queue_write_overflow_no_error_witness :
    ¬ queue_write_assert qEmpty4 ([1, 2, 3, 4, 5, 6, 7, 8] : List Nat).length ∧
    (queue_write qEmpty4 [1, 2, 3, 4, 5, 6, 7, 8]).buffer_usage =
      qEmpty4.buffer_usage + ([1, 2, 3, 4, 5, 6, 7, 8] : List Nat).length ∧
    qEmpty4.capacity < (queue_write qEmpty4 [1, 2, 3, 4, 5, 6, 7, 8]).buffer_usage :=
  queue_write_overflow_no_error qEmpty4 [1, 2, 3, 4, 5, 6, 7, 8]
    (by decide) (by decide) (by decide)

/-- C4: from any state satisfying the queue invariants, writing any
sequence of framed messages totalling at most `capacity − buffer_usage`
bytes and then draining yields exactly the pending bytes followed by the
written messages in order, byte for byte — for any starting positions,
wrap included — and leaves an empty well-formed queue, so interleaved
write/drain cycles preserve FIFO order. -/
theorem queue_roundtrip_fifo (q : Queue) (msgs : List (List Nat)) (hwf : q.wf)
    (hsum : (msgs.map List.length).sum ≤ q.capacity - q.buffer_usage) :
    (queue_read (writeAll q msgs)).2 = q.pending ++ msgs.flatten ∧
    (queue_read (writeAll q msgs)).1.wf ∧
    (queue_read (writeAll q msgs)).1.buffer_usage = 0 ∧
    (queue_read (writeAll q msgs)).1.pending = [] := by
  obtain ⟨h1, h2, h3, h4⟩ := writeAll_spec msgs q hwf hsum
  have hout := queue_read_out _ h1
  obtain ⟨hr1, hr2, hr3, hr4, hr5⟩ := queue_read_wf _ h1
  refine ⟨?_, hr1, hr3, ?_⟩
  · rw [hout, h3]
  · unfold Queue.pending
    rw [hr3]
    simp

theorem queue_roundtrip_fifo_witness :
    (queue_read (writeAll qWrap4 [[7, 8], [9]])).2 = qWrap4.pending ++ [[7, 8], [9]].flatten ∧
    (queue_read (writeAll qWrap4 [[7, 8], [9]])).1.wf ∧
    (queue_read (writeAll qWrap4 [[7, 8], [9]])).1.buffer_usage = 0 ∧
    (queue_read (writeAll qWrap4 [[7, 8], [9]])).1.pending = [] :=
  queue_roundtrip_fifo qWrap4 [[7, 8], [9]] (by decide) (by decide)

/-- C1: the heap node-list invariant is violated by the code.  On a heap
with a 65536-byte arena: three 4096-byte allocations produce nodes at
offsets 0, 4112 and 8224 (invariant holds); freeing node 0 and then node
4112 coalesces 4112 into 0 but leaves node 8224's `prev_node_offset`
pointing at the scrubbed header 4112, so the forward and backward
traversals no longer yield the same node multiset; the subsequent
`heap_free` of node 8224 then fails the
`assert(check_fourcc(prev->magic, "memz"))` in its reverse-merge scan. -/
theorem heap_free_coalesce_breaks_invariant :
    invariantAfter (initHeap 65536 0)
      [HeapOp.alloc 4096, HeapOp.alloc 4096, HeapOp.alloc 4096] = some true ∧
    invariantAfter (initHeap 65536 0)
      [HeapOp.alloc 4096, HeapOp.alloc 4096, HeapOp.alloc 4096,
       HeapOp.free 0, HeapOp.free 4112] = some false ∧
    runErr (initHeap 65536 0)
      [HeapOp.alloc 4096, HeapOp.alloc 4096, HeapOp.alloc 4096,
       HeapOp.free 0, HeapOp.free 4112, HeapOp.free 8224] = some HErr.assertFail := by
  decide

/-- C8: when the allocator locates no fit, `IPCClient::allocate` raises
`IPCHeapFull` — but with its two constructor arguments swapped relative to
the `IPCHeapFull(size_t alloc, size_t free)` signature: the available
byte count lands in the `alloc`/requested field and the requested size in
the `free`/available field.  The failed call leaves the heap unchanged. -/
theorem heap_full_error_fields_swapped :
    IPCClient_allocate (initHeap 4096 0) 8192 =
      .error (.heapFull 4096 8192) ∧
    heap_alloc (initHeap 4096 0) 8192 = .ok (initHeap 4096 0, none) :=
  ⟨rfl, rfl⟩

/-- C10: any request strictly over `INT32_MAX` makes `IPCClient::allocate`
throw a plain `IPCError` ("cannot allocate more than 2 GB") before the
heap mutex is taken and before `heap_alloc` runs, so the heap is
untouched and no `IPCHeapFull` is produced. -/
theorem allocate_rejects_over_2g (h : Heap) (size : Nat) (hbig : 2147483647 < size) :
    IPCClient_allocate h size = .error (.ipcError "cannot allocate more than 2 GB") := by
  unfold IPCClient_allocate
  rw [if_pos hbig]

theorem allocate_rejects_over_2g_witness :
    IPCClient_allocate (initHeap 4096 0) 2147483648 =
      .error (.ipcError "cannot allocate more than 2 GB") :=
  allocate_rejects_over_2g (initHeap 4096 0) 2147483648 (by decide)

/-- `lookupNode` after `setNode`: the written offset reads back the new
header, others are unchanged. -/
theorem lookup_setNode (ns : List (Nat × HeapNode)) (off : Nat) (n : HeapNode) (off2 : Nat) :
    lookupNode (setNode ns off n) off2 = if off = off2 then some n else lookupNode ns off2 := by
  induction ns with
  | nil =>
    by_cases h : off = off2 <;> simp [setNode, lookupNode, h]
  | cons p rest ih =>
    by_cases hp : p.1 = off
    · by_cases h : off = off2 <;> simp [setNode, lookupNode, hp, h]
    · by_cases h : off = off2
      · subst h
        simp [setNode, lookupNode, hp, ih]
      · simp [setNode, lookupNode, hp, ih, h]

/-- Overwriting the same offset twice keeps only the second write. -/
theorem setNode_setNode_self (ns : List (Nat × HeapNode)) (off : Nat) (a b : HeapNode) :
    setNode (setNode ns off a) off b = setNode ns off b := by
  induction ns with
  | nil => simp [setNode]
  | cons p rest ih =>
    by_cases hp : p.1 = off
    · simp [setNode, hp]
    · simp [setNode, hp, ih]

/-- An exhausted forward scan has not modified the heap. -/
theorem allocFwdLoop_none (cap size : Nat) :
    ∀ fuel h cur h2, allocFwdLoop cap size fuel h cur = .ok (h2, none) → h2 = h := by
  intro fuel
  induction fuel with
  | zero =>
    intro h cur h2 hres
    simp [allocFwdLoop] at hres
  | succ fuel ih =>
    intro h cur h2 hres
    unfold allocFwdLoop at hres
    split at hres
    · simp at hres
    · split at hres
      · simp at hres
      · split at hres
        · split at hres
          · split at hres
            · simp at hres
            · simp at hres
          · simp at hres
        · split at hres
          · simp only [Except.ok.injEq, Prod.mk.injEq] at hres
            exact hres.1.symm
          · exact ih _ _ _ hres

/-- Header-field frame facts for the forward scan loop. -/
theorem allocFwdLoop_frame (cap size : Nat) :
    ∀ fuel h cur h2 r, allocFwdLoop cap size fuel h cur = .ok (h2, r) →
      h2.size = h.size ∧ h2.buffer_offset = h.buffer_offset ∧
      h2.last_free_offset = h.last_free_offset ∧ h2.mutex_handle = h.mutex_handle := by
  intro fuel
  induction fuel with
  | zero =>
    intro h cur h2 r hres
    simp [allocFwdLoop] at hres
  | succ fuel ih =>
    intro h cur h2 r hres
    unfold allocFwdLoop at hres
    split at hres
    · simp at hres
    · split at hres
      · simp at hres
      · split at hres
        · split at hres
          · split at hres
            · simp at hres
            · simp only [Except.ok.injEq, Prod.mk.injEq] at hres
              obtain ⟨h1, h2eq⟩ := hres
              subst h1
              simp
          · simp only [Except.ok.injEq, Prod.mk.injEq] at hres
            obtain ⟨h1, h2eq⟩ := hres
            subst h1
            simp
        · split at hres
          · simp only [Except.ok.injEq, Prod.mk.injEq] at hres
            obtain ⟨h1, h2eq⟩ := hres
            subst h1
            simp
          · exact ih _ _ _ _ hres

/-- Header-field frame facts for the reverse scan loop, including that it
never touches `buffer_usage`. -/
theorem allocRevLoop_frame (cap size : Nat) :
    ∀ fuel h cur h2 r, allocRevLoop cap size fuel h cur = .ok (h2, r) →
      h2.size = h.size ∧ h2.buffer_offset = h.buffer_offset ∧
      h2.buffer_usage = h.buffer_usage ∧
      h2.last_free_offset = h.last_free_offset ∧ h2.mutex_handle = h.mutex_handle := by
  intro fuel
  induction fuel with
  | zero =>
    intro h cur h2 r hres
    simp [allocRevLoop] at hres
  | succ fuel ih =>
    intro h cur h2 r hres
    unfold allocRevLoop at hres
    split at hres
    · simp at hres
    · split at hres
      · simp at hres
      · split at hres
        · split at hres
          · simp at hres
          · simp only [Except.ok.injEq, Prod.mk.injEq] at hres
            obtain ⟨h1, h2eq⟩ := hres
            subst h1
            simp
        · split at hres
          · simp only [Except.ok.injEq, Prod.mk.injEq] at hres
            obtain ⟨h1, h2eq⟩ := hres
            subst h1
            simp
          · exact ih _ _ _ _ hres

theorem U32_eq : U32 = 4294967296 := rfl

theorem NULL_OFFSET_eq : NULL_OFFSET = 4294967295 := rfl

theorem alignUp16_ge (n : Nat) : n ≤ alignUp16 n := by
  unfold alignUp16
  by_cases hz : n % alignofHeapNode = 0 <;> simp [hz]

theorem alignUp16_le (n : Nat) : alignUp16 n ≤ n + 15 := by
  unfold alignUp16 alignofHeapNode
  by_cases hz : n % 16 = 0
  · simp [hz]
  · rw [if_neg hz]
    omega

theorem alignUpHeapNode_eq (n : Nat) (hb : n + alignofHeapNode < U32) :
    alignUpHeapNode n = alignUp16 n := by
  unfold alignUpHeapNode alignUp16
  by_cases hz : n % alignofHeapNode = 0
  · simp [hz]
  · rw [if_neg hz, if_neg hz]
    refine u32add_eq ?_
    have h1 : n % alignofHeapNode < alignofHeapNode :=
      Nat.mod_lt _ (by unfold alignofHeapNode; omega)
    omega

/-- Decomposition of a successful spine check at a cons. -/
theorem checkSpine_cons {ns : List (Nat × HeapNode)} {cap prevOff cur o : Nat}
    {rest : List Nat}
    (h : checkSpine ns cap prevOff cur (o :: rest) = true) :
    o = cur ∧ ∃ n, lookupNode ns o = some n ∧ n.magicOk = true ∧
      n.prev_node_offset = prevOff ∧
      ((rest = [] ∧ n.next_node_offset = NULL_OFFSET) ∨
       (∃ o2 rest2, rest = o2 :: rest2 ∧ n.next_node_offset = o2 ∧ o < o2 ∧ o2 < cap ∧
         checkSpine ns cap o o2 rest = true)) := by
  unfold checkSpine at h
  rw [Bool.and_eq_true] at h
  obtain ⟨h1, h2⟩ := h
  have ho : o = cur := of_decide_eq_true h1
  refine ⟨ho, ?_⟩
  cases hl : lookupNode ns o with
  | none => rw [hl] at h2; simp at h2
  | some n =>
    rw [hl] at h2
    cases rest with
    | nil =>
      simp only [Bool.and_eq_true, decide_eq_true_eq] at h2
      exact ⟨n, rfl, h2.1.1, h2.1.2, Or.inl ⟨rfl, h2.2⟩⟩
    | cons o2 rest2 =>
      simp only [Bool.and_eq_true, decide_eq_true_eq] at h2
      refine ⟨n, rfl, h2.1.1, h2.1.2, Or.inr ⟨o2, rest2, rfl, ?_, ?_, ?_, ?_⟩⟩ <;> tauto

theorem firstFit_cons (ns : List (Nat × HeapNode)) (cap size o : Nat) (rest : List Nat) :
    firstFit ns cap size (o :: rest) =
      if nodeFits ns cap size o then some o else firstFit ns cap size rest := by
  unfold firstFit
  cases hnf : nodeFits ns cap size o <;> simp [List.find?_cons, hnf]

/-- The forward scan of `heap_alloc` on a well-formed spine segment is
first-fit: it returns the first free node strictly larger than the
request, applying the spec-described split-and-mark, and reports a miss
without touching the heap. -/
theorem allocFwdLoop_scan (h : Heap) (size : Nat)
    (hcB : heapCapacity h ≤ 2147483647)
    (hus : h.buffer_usage ≤ heapCapacity h)
    (hsB : size ≤ heapCapacity h) :
    ∀ (l2 : List Nat) (prevOff cur fuel : Nat),
      checkSpine h.nodes (heapCapacity h) prevOff cur l2 = true →
      cur < heapCapacity h →
      l2.length < fuel →
      allocFwdLoop (heapCapacity h) size fuel h cur =
        (match firstFit h.nodes (heapCapacity h) size l2 with
         | none => .ok (h, none)
         | some off => .ok (applyFitSpec h (heapCapacity h) size off, some off)) := by
  have hcapU : heapCapacity h < U32 := by rw [U32_eq]; omega
  intro l2
  induction l2 with
  | nil =>
    intro prevOff cur fuel hsp
    simp [checkSpine] at hsp
  | cons o rest ih =>
    intro prevOff cur fuel hsp hcur hfuel
    obtain ⟨ho, n, hn, hmagic, hprev, hnext⟩ := checkSpine_cons hsp
    subst ho
    obtain ⟨f, rfl⟩ : ∃ f, fuel = f + 1 := ⟨fuel - 1, by omega⟩
    have hrn_le : realNextOf (heapCapacity h) n ≤ heapCapacity h := by
      rcases hnext with ⟨_, hnull⟩ | ⟨o2, rest2, hr, hno2, hlt, hltc, _⟩
      · simp [realNextOf, hnull]
      · rw [realNextOf, if_neg (by rw [hno2, NULL_OFFSET_eq]; omega), hno2]
        omega
    have hrn_gt : o < realNextOf (heapCapacity h) n := by
      rcases hnext with ⟨_, hnull⟩ | ⟨o2, rest2, hr, hno2, hlt, hltc, _⟩
      · simpa [realNextOf, hnull] using hcur
      · rw [realNextOf, if_neg (by rw [hno2, NULL_OFFSET_eq]; omega), hno2]
        omega
    have hns : u32sub (realNextOf (heapCapacity h) n) o = realNextOf (heapCapacity h) n - o :=
      u32sub_eq (le_of_lt hrn_gt) (lt_of_le_of_lt hrn_le hcapU)
    unfold allocFwdLoop
    simp only [hn]
    rw [if_neg (by rw [hmagic]; simp)]
    by_cases hfit : n.allocated = false ∧ size < u32sub (realNextOf (heapCapacity h) n) o
    · rw [if_pos hfit]
      have hfits : nodeFits h.nodes (heapCapacity h) size o = true := by
        unfold nodeFits
        rw [hn]
        exact decide_eq_true hfit
      have hrhs : (match firstFit h.nodes (heapCapacity h) size (o :: rest) with
             | none => (.ok (h, none) : Except HErr (Heap × Option Nat))
             | some off => .ok (applyFitSpec h (heapCapacity h) size off, some off)) =
            .ok (applyFitSpec h (heapCapacity h) size o, some o) := by
        rw [firstFit_cons, if_pos hfits]
      rw [hrhs]
      have hsizelt : size < realNextOf (heapCapacity h) n - o := by
        have h2 := hfit.2
        rwa [hns] at h2
      have hsub2 : u32sub (u32sub (realNextOf (heapCapacity h) n) o) size =
          realNextOf (heapCapacity h) n - o - size := by
        rw [hns]
        exact u32sub_eq (le_of_lt hsizelt) (by omega)
      have halign : alignUpHeapNode size = alignUp16 size :=
        alignUpHeapNode_eq size (by rw [U32_eq]; unfold alignofHeapNode; omega)
      unfold applyFitSpec
      simp only [hn]
      by_cases hsplit : 4096 ≤ realNextOf (heapCapacity h) n - o - size
      · rw [if_pos (by rw [hsub2]; exact hsplit), if_pos hsplit]
        have hbound : o + alignUp16 size < U32 := by
          have h15 := alignUp16_le size
          rw [U32_eq]
          omega
        have hnewOff : u32add o (alignUpHeapNode size) = o + alignUp16 size := by
          rw [halign]
          exact u32add_eq hbound
        have hsplit_eq : split_heap_node h.nodes o n size =
            setNode (setNode h.nodes (o + alignUp16 size)
                ({ magicOk := true, prev_node_offset := o,
                   next_node_offset := n.next_node_offset, allocated := false })) o
              ({ n with next_node_offset := o + alignUp16 size }) := by
          unfold split_heap_node
          rw [hnewOff]
        have hlsplit : lookupNode (split_heap_node h.nodes o n size) o =
            some ({ n with next_node_offset := o + alignUp16 size }) := by
          rw [hsplit_eq, lookup_setNode, if_pos rfl]
        simp only [hlsplit]
        have husageeq : u32add h.buffer_usage (u32sub (o + alignUp16 size) o) =
            h.buffer_usage + alignUp16 size := by
          rw [u32sub_eq (by omega) hbound]
          have h2 : o + alignUp16 size - o = alignUp16 size := by omega
          rw [h2]
          refine u32add_eq ?_
          have h15 := alignUp16_le size
          rw [U32_eq]
          omega
        rw [husageeq, hsplit_eq, setNode_setNode_self]
      · rw [if_neg (by rw [hsub2]; exact hsplit), if_neg hsplit]
        rw [hns]
        have husageeq : u32add h.buffer_usage (realNextOf (heapCapacity h) n - o) =
            h.buffer_usage + (realNextOf (heapCapacity h) n - o) := by
          refine u32add_eq ?_
          rw [U32_eq]
          omega
        rw [husageeq]
    · rw [if_neg hfit]
      have hfits : nodeFits h.nodes (heapCapacity h) size o = false := by
        unfold nodeFits
        rw [hn]
        exact decide_eq_false hfit
      have hrhs : (match firstFit h.nodes (heapCapacity h) size (o :: rest) with
             | none => (.ok (h, none) : Except HErr (Heap × Option Nat))
             | some off => .ok (applyFitSpec h (heapCapacity h) size off, some off)) =
            (match firstFit h.nodes (heapCapacity h) size rest with
             | none => (.ok (h, none) : Except HErr (Heap × Option Nat))
             | some off => .ok (applyFitSpec h (heapCapacity h) size off, some off)) := by
        rw [firstFit_cons, if_neg (by rw [hfits]; simp)]
      rw [hrhs]
      rcases hnext with ⟨hre, hnull⟩ | ⟨o2, rest2, hr, hno2, hlt, hltc, hsp2⟩
      · subst hre
        rw [if_pos hnull]
        simp [firstFit]
      · rw [if_neg (by rw [hno2, NULL_OFFSET_eq]; omega), hno2]
        refine ih o o2 f hsp2 hltc ?_
        simp only [List.length_cons] at hfuel
        omega

theorem sizeofHeapNode_eq : sizeofHeapNode = 16 := rfl

/-- Every offset on a spine whose head is in bounds is in bounds. -/
theorem checkSpine_mem_lt (ns : List (Nat × HeapNode)) (cap : Nat) :
    ∀ (l : List Nat) (p c : Nat), checkSpine ns cap p c l = true → c < cap →
      ∀ x ∈ l, x < cap := by
  intro l
  induction l with
  | nil => intro p c _ _ x hx; simp at hx
  | cons o rest ih =>
    intro p c hsp hc x hx
    obtain ⟨ho, n, hn, _, _, hnext⟩ := checkSpine_cons hsp
    subst ho
    rcases List.mem_cons.mp hx with hxo | hxr
    · omega
    · rcases hnext with ⟨hre, _⟩ | ⟨o2, rest2, hr, hno2, hlt, hltc, hsp2⟩
      · subst hre; simp at hxr
      · exact ih o o2 hsp2 hltc x hxr

/-- The spine check transfers to the suffix starting at any member. -/
theorem checkSpine_suffix (ns : List (Nat × HeapNode)) (cap : Nat) :
    ∀ (l : List Nat) (p c start : Nat), checkSpine ns cap p c l = true → start ∈ l →
      ∃ p2, checkSpine ns cap p2 start (l.dropWhile (fun o => o ≠ start)) = true ∧
            (l.dropWhile (fun o => o ≠ start)).length ≤ l.length := by
  intro l
  induction l with
  | nil => intro p c start _ hmem; simp at hmem
  | cons o rest ih =>
    intro p c start hsp hmem
    obtain ⟨ho, n, hn, _, _, hnext⟩ := checkSpine_cons hsp
    subst ho
    by_cases hos : o = start
    · subst hos
      have hdw : List.dropWhile (fun x => decide (x ≠ o)) (o :: rest) = o :: rest := by
        rw [List.dropWhile_cons]
        simp
      rw [hdw]
      exact ⟨p, hsp, le_refl _⟩
    · have hmem2 : start ∈ rest := by
        rcases List.mem_cons.mp hmem with h1 | h1
        · exact absurd h1.symm hos
        · exact h1
      rcases hnext with ⟨hre, _⟩ | ⟨o2, rest2, hr, hno2, hlt, hltc, hsp2⟩
      · subst hre; simp at hmem2
      · obtain ⟨p2, hsub, hlenle⟩ := ih o o2 start hsp2 hmem2
        have hdw : List.dropWhile (fun x => decide (x ≠ start)) (o :: rest) =
            List.dropWhile (fun x => decide (x ≠ start)) rest := by
          rw [List.dropWhile_cons]
          simp [hos]
        rw [hdw]
        exact ⟨p2, hsub, by simp only [List.length_cons]; omega⟩

/-- C5: on a well-formed heap, `heap_alloc` behaves as the allocation
algorithm the spec describes (`alloc_spec`): it fails immediately exactly
when the request plus header does not fit in the remaining free capacity;
otherwise the forward scan from `last_free_offset` (or the first node)
takes the first free node strictly larger than request plus header,
splits it (inserting the new header at the 16-byte-aligned end of the
allocated part) exactly when the remainder is at least 4096 bytes, marks
it allocated, and `IPCClient::allocate` hands the caller the offset just
past the header. -/
theorem heap_alloc_follows_spec_aux (h : Heap) (l : List Nat) (size : Nat) (hwf : Heap.WF h l) :
    (alloc_spec h l size = .fail → heap_alloc h size = .ok (h, none)) ∧
    (∀ h2 payload, alloc_spec h l size = .fit h2 payload →
       heap_alloc h size = .ok (h2, some (payload - sizeofHeapNode)) ∧
       (size ≤ 2147483647 → IPCClient_allocate h size = .ok (h2, payload))) := by
  obtain ⟨hspine, hc16, hcB, hbo, hsz, husg, hhint, hlen⟩ := hwf
  rw [sizeofHeapNode_eq] at hc16
  have hcapU : heapCapacity h < U32 := by rw [U32_eq]; omega
  have hsub16 : u32sub (heapCapacity h) sizeofHeapNode = heapCapacity h - sizeofHeapNode :=
    u32sub_eq (by rw [sizeofHeapNode_eq]; omega) hcapU
  have hsubus : u32sub (heapCapacity h) h.buffer_usage = heapCapacity h - h.buffer_usage :=
    u32sub_eq husg hcapU
  by_cases hfail : size + sizeofHeapNode > heapCapacity h - h.buffer_usage
  · have hspec : alloc_spec h l size = .fail := by
      unfold alloc_spec
      rw [if_pos hfail]
    refine ⟨fun _ => ?_, fun h2 payload hfit => ?_⟩
    · unfold heap_alloc
      by_cases h78 : size > u32sub (heapCapacity h) sizeofHeapNode
      · rw [if_pos h78]
      · rw [if_neg h78]
        rw [hsub16, sizeofHeapNode_eq] at h78
        push_neg at h78
        have hadd : u32add size sizeofHeapNode = size + sizeofHeapNode := by
          refine u32add_eq ?_
          rw [sizeofHeapNode_eq, U32_eq]
          omega
        rw [hadd, hsubus, if_pos (by omega)]
    · rw [hspec] at hfit
      simp at hfit
  · push_neg at hfail
    rw [sizeofHeapNode_eq] at hfail
    have h78 : ¬ (size > u32sub (heapCapacity h) sizeofHeapNode) := by
      rw [hsub16, sizeofHeapNode_eq]
      omega
    have hadd : u32add size sizeofHeapNode = size + sizeofHeapNode := by
      refine u32add_eq ?_
      rw [sizeofHeapNode_eq, U32_eq]
      omega
    have hl_head : ∃ rest, l = 0 :: rest := by
      cases l with
      | nil => simp [checkSpine] at hspine
      | cons o rest =>
        obtain ⟨ho, _⟩ := checkSpine_cons hspine
        exact ⟨rest, by rw [ho]⟩
    have hstart_mem : allocStart h ∈ l := by
      unfold allocStart
      by_cases hh : h.last_free_offset ≠ NULL_OFFSET
      · rw [if_pos hh]
        rcases hhint with h1 | h1
        · exact absurd h1 hh
        · exact h1
      · rw [if_neg hh]
        obtain ⟨rest, hrest⟩ := hl_head
        rw [hrest]
        exact List.mem_cons_self _ _
    have hstart_lt : allocStart h < heapCapacity h := by
      refine checkSpine_mem_lt h.nodes (heapCapacity h) l NULL_OFFSET 0 hspine
        (by omega) _ hstart_mem
    obtain ⟨p2, hsufsp, hsuflen⟩ :=
      checkSpine_suffix h.nodes (heapCapacity h) l NULL_OFFSET 0 (allocStart h)
        hspine hstart_mem
    have hscan := allocFwdLoop_scan h (size + sizeofHeapNode) hcB husg
      (by rw [sizeofHeapNode_eq]; omega)
      (l.dropWhile (fun o => o ≠ allocStart h)) p2 (allocStart h) (allocFuel h)
      hsufsp hstart_lt (by unfold allocFuel; omega)
    have hspec_fail : ¬ (alloc_spec h l size = .fail) := by
      unfold alloc_spec
      rw [if_neg (by rw [sizeofHeapNode_eq]; omega)]
      cases hff : firstFit h.nodes (heapCapacity h) (size + sizeofHeapNode)
          (l.dropWhile (fun o => o ≠ allocStart h)) with
      | none => simp
      | some off => simp
    refine ⟨fun hx => absurd hx hspec_fail, fun h2 payload hfit => ?_⟩
    unfold alloc_spec at hfit
    rw [if_neg (by rw [sizeofHeapNode_eq]; omega)] at hfit
    cases hff : firstFit h.nodes (heapCapacity h) (size + sizeofHeapNode)
        (l.dropWhile (fun o => o ≠ allocStart h)) with
    | none =>
      rw [hff] at hfit
      simp at hfit
    | some off =>
      rw [hff] at hfit
      simp only [SpecAllocResult.fit.injEq] at hfit
      obtain ⟨hh2, hpay⟩ := hfit
      have hoff_mem : off ∈ l := by
        have h1 := List.mem_of_find?_eq_some hff
        exact List.Sublist.mem h1 (List.dropWhile_sublist _)
      have hoff_lt : off < heapCapacity h :=
        checkSpine_mem_lt h.nodes (heapCapacity h) l NULL_OFFSET 0 hspine
          (by omega) _ hoff_mem
      have hha : heap_alloc h size = .ok (applyFitSpec h (heapCapacity h)
          (size + sizeofHeapNode) off, some off) := by
        unfold heap_alloc
        rw [if_neg h78, hadd, hsubus, if_neg (by rw [sizeofHeapNode_eq]; omega)]
        rw [hscan, hff]
      refine ⟨?_, fun hsmall => ?_⟩
      · rw [hha, ← hh2, ← hpay]
        simp [sizeofHeapNode_eq]
      · unfold IPCClient_allocate
        rw [if_neg (by omega), hha]
        have hadd2 : u32add off sizeofHeapNode = off + sizeofHeapNode := by
          refine u32add_eq ?_
          rw [sizeofHeapNode_eq, U32_eq]
          omega
        rw [← hh2, ← hpay]
        show Except.ok (applyFitSpec h (heapCapacity h) (size + sizeofHeapNode) off,
            u32add off sizeofHeapNode) =
          Except.ok (applyFitSpec h (heapCapacity h) (size + sizeofHeapNode) off,
            off + sizeofHeapNode)
        rw [hadd2]

/-- C5: on a well-formed heap, `heap_alloc` behaves as the allocation
algorithm the spec describes (`alloc_spec`): it fails immediately exactly
when the request plus header does not fit in the remaining free capacity;
otherwise the forward scan starting from `last_free_offset` (or the first
node when there is no hint) takes the first free node strictly larger
than request plus header, splits it (inserting the new header after the
16-byte-aligned allocated part) exactly when the remainder is at least
4096 bytes, marks it allocated, and `IPCClient::allocate` hands the
caller the offset just past the header. -/
theorem heap_alloc_follows_spec (h : Heap) (l : List Nat) (size : Nat) (hwf : Heap.WF h l) :
    (alloc_spec h l size = .fail → heap_alloc h size = .ok (h, none)) ∧
    (match alloc_spec h l size with
     | .fit h2 payload =>
         heap_alloc h size = .ok (h2, some (payload - sizeofHeapNode)) ∧
         (size ≤ 2147483647 → IPCClient_allocate h size = .ok (h2, payload))
     | _ => True) := by
  obtain ⟨hfl, hft⟩ := heap_alloc_follows_spec_aux h l size hwf
  refine ⟨hfl, ?_⟩
  cases hres : alloc_spec h l size with
  | fail => simp
  | fallthrough => simp
  | fit h2 payload => exact hft h2 payload hres

theorem heap_alloc_follows_spec_witness :
    (alloc_spec (initHeap 65536 0) [0] 4096 = .fail →
      heap_alloc (initHeap 65536 0) 4096 = .ok (initHeap 65536 0, none)) ∧
    (match alloc_spec (initHeap 65536 0) [0] 4096 with
     | .fit h2 payload =>
         heap_alloc (initHeap 65536 0) 4096 = .ok (h2, some (payload - sizeofHeapNode)) ∧
         (4096 ≤ 2147483647 → IPCClient_allocate (initHeap 65536 0) 4096 = .ok (h2, payload))
     | _ => True) :=
  heap_alloc_follows_spec (initHeap 65536 0) [0] 4096 (by decide)

/-- The canonical forward-scan call inside `heap_alloc`, characterized as
first-fit over the spine suffix from the scan start. -/
theorem allocFwdLoop_main (h : Heap) (l : List Nat) (hwf : Heap.WF h l) (size2 : Nat)
    (hs2 : size2 ≤ heapCapacity h) :
    allocFwdLoop (heapCapacity h) size2 (allocFuel h) h (allocStart h) =
      (match firstFit h.nodes (heapCapacity h) size2
          (l.dropWhile (fun o => o ≠ allocStart h)) with
       | none => .ok (h, none)
       | some off => .ok (applyFitSpec h (heapCapacity h) size2 off, some off)) := by
  obtain ⟨hspine, hc16, hcB, hbo, hsz, husg, hhint, hlen⟩ := hwf
  rw [sizeofHeapNode_eq] at hc16
  have hl_head : ∃ rest, l = 0 :: rest := by
    cases l with
    | nil => simp [checkSpine] at hspine
    | cons o rest =>
      obtain ⟨ho, _⟩ := checkSpine_cons hspine
      exact ⟨rest, by rw [ho]⟩
  have hstart_mem : allocStart h ∈ l := by
    unfold allocStart
    by_cases hh : h.last_free_offset ≠ NULL_OFFSET
    · rw [if_pos hh]
      rcases hhint with h1 | h1
      · exact absurd h1 hh
      · exact h1
    · rw [if_neg hh]
      obtain ⟨rest, hrest⟩ := hl_head
      rw [hrest]
      exact List.mem_cons_self _ _
  have hstart_lt : allocStart h < heapCapacity h :=
    checkSpine_mem_lt h.nodes (heapCapacity h) l NULL_OFFSET 0 hspine (by omega) _ hstart_mem
  obtain ⟨p2, hsufsp, hsuflen⟩ :=
    checkSpine_suffix h.nodes (heapCapacity h) l NULL_OFFSET 0 (allocStart h) hspine hstart_mem
  exact allocFwdLoop_scan h size2 hcB husg hs2
    (l.dropWhile (fun o => o ≠ allocStart h)) p2 (allocStart h) (allocFuel h)
    hsufsp hstart_lt (by unfold allocFuel; omega)

/-- A non-null next offset is the node's real next. -/
theorem realNextOf_ne (cap : Nat) (n : HeapNode) (h : n.next_node_offset ≠ NULL_OFFSET) :
    realNextOf cap n = n.next_node_offset := by
  unfold realNextOf
  rw [if_neg h]

/-- Spine nodes have their real extent within the arena. -/
theorem checkSpine_node_bounds (ns : List (Nat × HeapNode)) (cap : Nat)
    (hcap : cap ≤ 4294967295) :
    ∀ (l : List Nat) (p c : Nat), checkSpine ns cap p c l = true → c < cap →
      ∀ x ∈ l, ∃ n, lookupNode ns x = some n ∧ x < realNextOf cap n ∧
        realNextOf cap n ≤ cap := by
  intro l
  induction l with
  | nil => intro p c hsp _ x hx; simp at hx
  | cons o rest ih =>
    intro p c hsp hc x hx
    obtain ⟨ho, n, hn, _, _, hnext⟩ := checkSpine_cons hsp
    subst ho
    rcases List.mem_cons.mp hx with hxo | hxr
    · subst hxo
      rcases hnext with ⟨_, hnull⟩ | ⟨o2, rest2, hr, hno2, hlt, hltc, _⟩
      · have hrn : realNextOf cap n = cap := by
          unfold realNextOf
          rw [if_pos hnull]
        exact ⟨n, hn, by omega, by omega⟩
      · have hrn : realNextOf cap n = o2 := by
          refine (realNextOf_ne cap n ?_).trans hno2
          rw [hno2, NULL_OFFSET_eq]
          omega
        exact ⟨n, hn, by omega, by omega⟩
    · rcases hnext with ⟨hre, _⟩ | ⟨o2, rest2, hr, hno2, hlt, hltc, hsp2⟩
      · subst hre
        simp at hxr
      · exact ih o o2 hsp2 hltc x hxr

/-- C6: `heap_alloc` leaves `size`, `buffer_offset`, `last_free_offset`
and `mutex_handle` untouched on every successful allocation; it adds the
allocated node's real size (header included) to `buffer_usage` when the
request is satisfied by the forward scan, and leaves `buffer_usage`
unchanged when it is satisfied by the backward scan. -/
theorem heap_alloc_usage_frame (h : Heap) (l : List Nat) (size : Nat) (h2 : Heap) (off : Nat)
    (hwf : Heap.WF h l) (hres : heap_alloc h size = .ok (h2, some off)) :
    h2.size = h.size ∧ h2.buffer_offset = h.buffer_offset ∧
    h2.last_free_offset = h.last_free_offset ∧ h2.mutex_handle = h.mutex_handle ∧
    (allocFwdFound h size = true →
      ∃ n2, lookupNode h2.nodes off = some n2 ∧ n2.allocated = true ∧
        h2.buffer_usage = h.buffer_usage + (realNextOf (heapCapacity h) n2 - off)) ∧
    (allocFwdFound h size = false → h2.buffer_usage = h.buffer_usage) := by
  have hwf2 := hwf
  obtain ⟨hspine, hc16, hcB, hbo, hsz, husg, hhint, hlen⟩ := hwf2
  rw [sizeofHeapNode_eq] at hc16
  have hcapU : heapCapacity h < U32 := by rw [U32_eq]; omega
  unfold heap_alloc at hres
  by_cases hg1 : size > u32sub (heapCapacity h) sizeofHeapNode
  · rw [if_pos hg1] at hres
    simp at hres
  · rw [if_neg hg1] at hres
    by_cases hg2 : u32add size sizeofHeapNode > u32sub (heapCapacity h) h.buffer_usage
    · rw [if_pos hg2] at hres
      simp at hres
    · rw [if_neg hg2] at hres
      rw [u32sub_eq (by rw [sizeofHeapNode_eq]; omega) hcapU] at hg1
      rw [sizeofHeapNode_eq] at hg1
      push_neg at hg1
      have hadd : u32add size sizeofHeapNode = size + sizeofHeapNode := by
        refine u32add_eq ?_
        rw [sizeofHeapNode_eq, U32_eq]
        omega
      have hs2 : u32add size sizeofHeapNode ≤ heapCapacity h := by
        rw [hadd, sizeofHeapNode_eq]
        omega
      have hmain := allocFwdLoop_main h l hwf (u32add size sizeofHeapNode) hs2
      cases hff : firstFit h.nodes (heapCapacity h) (u32add size sizeofHeapNode)
          (l.dropWhile (fun o => o ≠ allocStart h)) with
      | none =>
        have hloop : allocFwdLoop (heapCapacity h) (u32add size sizeofHeapNode) (allocFuel h)
            h (allocStart h) = .ok (h, none) := by
          rw [hmain, hff]
        have hfound : allocFwdFound h size = false := by
          unfold allocFwdFound
          rw [hloop]
        simp only [hloop] at hres
        cases hl2 : lookupNode h.nodes (allocStart h) with
        | none =>
          simp only [hl2] at hres
          simp at hres
        | some initial =>
          simp only [hl2] at hres
          by_cases hpn : initial.prev_node_offset = NULL_OFFSET
          · rw [if_pos hpn] at hres
            simp at hres
          · rw [if_neg hpn] at hres
            obtain ⟨f1, f2, f3, f4, f5⟩ := allocRevLoop_frame (heapCapacity h)
              (u32add size sizeofHeapNode) (allocFuel h) h initial.prev_node_offset h2
              (some off) hres
            refine ⟨f1, f2, f4, f5, ?_, fun _ => f3⟩
            intro hcontra
            rw [hfound] at hcontra
            simp at hcontra
      | some o =>
        have hloop : allocFwdLoop (heapCapacity h) (u32add size sizeofHeapNode) (allocFuel h)
            h (allocStart h) =
            .ok (applyFitSpec h (heapCapacity h) (u32add size sizeofHeapNode) o, some o) := by
          rw [hmain, hff]
        have hfound : allocFwdFound h size = true := by
          unfold allocFwdFound
          rw [hloop]
        simp only [hloop] at hres
        simp only [Except.ok.injEq, Prod.mk.injEq, Option.some.injEq] at hres
        obtain ⟨hh2, hoff⟩ := hres
        subst hoff
        have hfind : nodeFits h.nodes (heapCapacity h) (u32add size sizeofHeapNode) o
            = true := List.find?_some hff
        have ho_mem : o ∈ l :=
          List.Sublist.mem (List.mem_of_find?_eq_some hff) (List.dropWhile_sublist _)
        obtain ⟨n, hn, hgt, hle⟩ := checkSpine_node_bounds h.nodes (heapCapacity h)
          (by omega) l NULL_OFFSET 0 hspine (by omega) o ho_mem
        unfold nodeFits at hfind
        simp only [hn] at hfind
        have hfit := of_decide_eq_true hfind
        have hsub : u32sub (realNextOf (heapCapacity h) n) o =
            realNextOf (heapCapacity h) n - o :=
          u32sub_eq (by omega) (by rw [U32_eq]; omega)
        have hsizelt : u32add size sizeofHeapNode < realNextOf (heapCapacity h) n - o := by
          have h1 := hfit.2
          rwa [hsub] at h1
        unfold applyFitSpec at hh2
        simp only [hn] at hh2
        by_cases hsplit : 4096 ≤ realNextOf (heapCapacity h) n - o - u32add size sizeofHeapNode
        · rw [if_pos hsplit] at hh2
          have h15 := alignUp16_le (u32add size sizeofHeapNode)
          have hA : alignUp16 (u32add size sizeofHeapNode) ≤
              realNextOf (heapCapacity h) n - o := by
            omega
          have hnn : o + alignUp16 (u32add size sizeofHeapNode) ≠ NULL_OFFSET := by
            rw [NULL_OFFSET_eq]
            omega
          refine ⟨by rw [← hh2], by rw [← hh2], by rw [← hh2], by rw [← hh2], ?_, ?_⟩
          · intro _
            refine ⟨{ n with next_node_offset := o + alignUp16 (u32add size sizeofHeapNode), allocated := true }, ?_, rfl, ?_⟩
            · rw [← hh2]
              show lookupNode (setNode _ o _) o = _
              rw [lookup_setNode, if_pos rfl]
            · rw [← hh2]
              have hnn2 : ({ n with next_node_offset := o + alignUp16 (u32add size sizeofHeapNode), allocated := true } : HeapNode).next_node_offset ≠ NULL_OFFSET := hnn
              rw [realNextOf_ne _ _ hnn2]
              show h.buffer_usage + alignUp16 (u32add size sizeofHeapNode) =
                h.buffer_usage + (o + alignUp16 (u32add size sizeofHeapNode) - o)
              omega
          · intro hcontra
            rw [hfound] at hcontra
            simp at hcontra
        · rw [if_neg hsplit] at hh2
          refine ⟨by rw [← hh2], by rw [← hh2], by rw [← hh2], by rw [← hh2], ?_, ?_⟩
          · intro _
            refine ⟨{ n with allocated := true }, ?_, rfl, ?_⟩
            · rw [← hh2]
              show lookupNode (setNode _ o _) o = _
              rw [lookup_setNode, if_pos rfl]
            · rw [← hh2]
              rfl
          · intro hcontra
            rw [hfound] at hcontra
            simp at hcontra

theorem heap_alloc_usage_frame_witness :
    allocDemoHeap.size = (initHeap 65536 0).size ∧
    allocDemoHeap.buffer_offset = (initHeap 65536 0).buffer_offset ∧
    allocDemoHeap.last_free_offset = (initHeap 65536 0).last_free_offset ∧
    allocDemoHeap.mutex_handle = (initHeap 65536 0).mutex_handle ∧
    (allocFwdFound (initHeap 65536 0) 4096 = true →
      ∃ n2, lookupNode allocDemoHeap.nodes 0 = some n2 ∧ n2.allocated = true ∧
        allocDemoHeap.buffer_usage = (initHeap 65536 0).buffer_usage +
          (realNextOf (heapCapacity (initHeap 65536 0)) n2 - 0)) ∧
    (allocFwdFound (initHeap 65536 0) 4096 = false →
      allocDemoHeap.buffer_usage = (initHeap 65536 0).buffer_usage) :=
  heap_alloc_usage_frame (initHeap 65536 0) [0] 4096 allocDemoHeap 0 (by decide) (by rfl)

/-- C9: the slave constructor accepts the mapped segment and hands back
exactly the event and mutex handles stored in the queue and heap headers
if and only if every validation in the claim's list passes (header magic
`"avsw"`, header size equal to the mapping size, protocol version,
in-bounds child offsets, queue magics `"cmdq"`, heap magic `"heap"`,
in-bounds buffer offsets); on any validation failure it throws an
`IPCError` and the slave process exits abnormally (nonzero). -/
theorem slave_attach_validation (seg : SegmentView) (shmem_size : Nat) :
    (slave_attach seg shmem_size = .ok (inheritedHandles seg) ↔
      slaveSegmentValid seg shmem_size) ∧
    (¬ slaveSegmentValid seg shmem_size →
      (∃ e, slave_attach seg shmem_size = .error (.ipcError e)) ∧
      wmain_model 4 true seg shmem_size = .abnormalExit) ∧
    (slaveSegmentValid seg shmem_size →
      wmain_model 4 true seg shmem_size = .running (inheritedHandles seg)) := by
  have hshape : (slave_attach seg shmem_size = .ok (inheritedHandles seg) ∧
      slaveSegmentValid seg shmem_size) ∨
      ((∃ e, slave_attach seg shmem_size = .error (.ipcError e)) ∧
        ¬ slaveSegmentValid seg shmem_size) := by
    by_cases h1 : shmem_size < sizeofSharedMemoryHeader
    · have hA : slave_attach seg shmem_size = .error (.ipcError "wrong shared memory size") := by
        unfold slave_attach
        rw [if_pos h1]
      refine Or.inr ⟨⟨_, hA⟩, fun hv => ?_⟩
      obtain ⟨c1, _⟩ := hv
      omega
    · by_cases h2 : seg.header.magicOk = false
      · have hA : slave_attach seg shmem_size =
            .error (.ipcError "bad header in shared memory") := by
          unfold slave_attach
          rw [if_neg h1, if_pos h2]
        refine Or.inr ⟨⟨_, hA⟩, fun hv => ?_⟩
        obtain ⟨_, c2, _⟩ := hv
        rw [c2] at h2
        exact absurd h2 (by simp)
      · by_cases h3 : seg.header.size ≠ shmem_size
        · have hA : slave_attach seg shmem_size =
              .error (.ipcError "wrong shared memory size") := by
            unfold slave_attach
            rw [if_neg h1, if_neg h2, if_pos h3]
          refine Or.inr ⟨⟨_, hA⟩, fun hv => ?_⟩
          obtain ⟨_, _, c3, _⟩ := hv
          exact h3 c3
        · by_cases h4 : seg.header.version ≠ VERSION
          · have hA : slave_attach seg shmem_size =
                .error (.ipcError "IPC version mismatch") := by
              unfold slave_attach
              rw [if_neg h1, if_neg h2, if_neg h3, if_pos h4]
            refine Or.inr ⟨⟨_, hA⟩, fun hv => ?_⟩
            obtain ⟨_, _, _, c4, _⟩ := hv
            exact h4 c4
          · by_cases h5 : seg.header.slave_queue_offset > u64sub seg.header.size sizeofQueue ∨
                seg.header.master_queue_offset > u64sub seg.header.size sizeofQueue ∨
                seg.header.heap_offset > u64sub seg.header.size sizeofHeap
            · have hA : slave_attach seg shmem_size =
                  .error (.ipcError "pointer out of bounds") := by
                unfold slave_attach
                rw [if_neg h1, if_neg h2, if_neg h3, if_neg h4, if_pos h5]
              refine Or.inr ⟨⟨_, hA⟩, fun hv => ?_⟩
              obtain ⟨_, _, _, _, c5, c6, c7, _⟩ := hv
              rcases h5 with h | h | h <;> omega
            · by_cases h6 : seg.master_queue.magicOk = false
              · have hA : slave_attach seg shmem_size =
                    .error (.ipcError "bad queue header") := by
                  unfold slave_attach
                  rw [if_neg h1, if_neg h2, if_neg h3, if_neg h4, if_neg h5, if_pos h6]
                refine Or.inr ⟨⟨_, hA⟩, fun hv => ?_⟩
                obtain ⟨_, _, _, _, _, _, _, c8, _⟩ := hv
                rw [c8] at h6
                exact absurd h6 (by simp)
              · by_cases h7 : seg.master_queue.size >
                    u32sub seg.header.size seg.header.master_queue_offset ∨
                    seg.master_queue.buffer_offset > u64sub seg.master_queue.size sizeofCommand
                · have hA : slave_attach seg shmem_size =
                      .error (.ipcError "pointer out of bounds") := by
                    unfold slave_attach
                    rw [if_neg h1, if_neg h2, if_neg h3, if_neg h4, if_neg h5, if_neg h6,
                      if_pos h7]
                  refine Or.inr ⟨⟨_, hA⟩, fun hv => ?_⟩
                  obtain ⟨_, _, _, _, _, _, _, _, c9, c10, _⟩ := hv
                  rcases h7 with h | h <;> omega
                · by_cases h8 : seg.slave_queue.magicOk = false
                  · have hA : slave_attach seg shmem_size =
                        .error (.ipcError "bad queue header") := by
                      unfold slave_attach
                      rw [if_neg h1, if_neg h2, if_neg h3, if_neg h4, if_neg h5, if_neg h6,
                        if_neg h7, if_pos h8]
                    refine Or.inr ⟨⟨_, hA⟩, fun hv => ?_⟩
                    obtain ⟨_, _, _, _, _, _, _, _, _, _, c11, _⟩ := hv
                    rw [c11] at h8
                    exact absurd h8 (by simp)
                  · by_cases h9 : seg.slave_queue.size >
                        u32sub seg.header.size seg.header.slave_queue_offset ∨
                        seg.slave_queue.buffer_offset >
                          u64sub seg.slave_queue.size sizeofCommand
                    · have hA : slave_attach seg shmem_size =
                          .error (.ipcError "pointer out of bounds") := by
                        unfold slave_attach
                        rw [if_neg h1, if_neg h2, if_neg h3, if_neg h4, if_neg h5, if_neg h6,
                          if_neg h7, if_neg h8, if_pos h9]
                      refine Or.inr ⟨⟨_, hA⟩, fun hv => ?_⟩
                      obtain ⟨_, _, _, _, _, _, _, _, _, _, _, c12, c13, _⟩ := hv
                      rcases h9 with h | h <;> omega
                    · by_cases h10 : seg.heap.magicOk = false
                      · have hA : slave_attach seg shmem_size =
                            .error (.ipcError "bad heap header") := by
                          unfold slave_attach
                          rw [if_neg h1, if_neg h2, if_neg h3, if_neg h4, if_neg h5,
                            if_neg h6, if_neg h7, if_neg h8, if_neg h9, if_pos h10]
                        refine Or.inr ⟨⟨_, hA⟩, fun hv => ?_⟩
                        obtain ⟨_, _, _, _, _, _, _, _, _, _, _, _, _, c14, _⟩ := hv
                        rw [c14] at h10
                        exact absurd h10 (by simp)
                      · by_cases h11 : seg.heap.size >
                            u32sub seg.header.size seg.header.heap_offset ∨
                            seg.heap.buffer_offset > u64sub seg.heap.size sizeofHeapNode
                        · have hA : slave_attach seg shmem_size =
                              .error (.ipcError "pointer out of bounds") := by
                            unfold slave_attach
                            rw [if_neg h1, if_neg h2, if_neg h3, if_neg h4, if_neg h5,
                              if_neg h6, if_neg h7, if_neg h8, if_neg h9, if_neg h10,
                              if_pos h11]
                          refine Or.inr ⟨⟨_, hA⟩, fun hv => ?_⟩
                          obtain ⟨_, _, _, _, _, _, _, _, _, _, _, _, _, _, c15, c16⟩ := hv
                          rcases h11 with h | h <;> omega
                        · have hA : slave_attach seg shmem_size =
                              .ok (inheritedHandles seg) := by
                            unfold slave_attach
                            rw [if_neg h1, if_neg h2, if_neg h3, if_neg h4, if_neg h5,
                              if_neg h6, if_neg h7, if_neg h8, if_neg h9, if_neg h10,
                              if_neg h11]
                          refine Or.inl ⟨hA, ?_⟩
                          push_neg at h3 h4 h5 h7 h9 h11
                          refine ⟨by omega, by simpa using h2, h3, h4, by omega, by omega,
                            by omega, by simpa using h6, by omega, by omega,
                            by simpa using h8, by omega, by omega, by simpa using h10,
                            by omega, by omega⟩
  rcases hshape with ⟨hok, hv⟩ | ⟨⟨e, herr⟩, hnv⟩
  · refine ⟨⟨fun _ => hv, fun _ => hok⟩, fun hc => absurd hv hc, fun _ => ?_⟩
    unfold wmain_model
    rw [if_neg (by omega), if_neg (by simp), hok]
  · refine ⟨⟨fun hok => ?_, fun hv => absurd hv hnv⟩, fun _ => ⟨⟨e, herr⟩, ?_⟩,
      fun hv => absurd hv hnv⟩
    · rw [herr] at hok
      exact absurd hok (by simp)
    · unfold wmain_model
      rw [if_neg (by omega), if_neg (by simp), herr]

theorem slave_attach_validation_witness :
    (slave_attach demoSegment 65536 = .ok (inheritedHandles demoSegment) ↔
      slaveSegmentValid demoSegment 65536) ∧
    (¬ slaveSegmentValid demoSegment 65536 →
      (∃ e, slave_attach demoSegment 65536 = .error (.ipcError e)) ∧
      wmain_model 4 true demoSegment 65536 = .abnormalExit) ∧
    (slaveSegmentValid demoSegment 65536 →
      wmain_model 4 true demoSegment 65536 = .running (inheritedHandles demoSegment)) :=
  slave_attach_validation demoSegment 65536

/-! Codec helper lemmas. -/

theorem u32v_w32 (n : Nat) :
    u32v (n % 256) (n / 256 % 256) (n / 65536 % 256) (n / 16777216 % 256) =
      n % 4294967296 := by
  unfold u32v
  omega

theorem u64v_w64 (n : Nat) :
    u64v (n % 256) (n / 256 % 256) (n / 65536 % 256) (n / 16777216 % 256)
      (n / 4294967296 % 256) (n / 1099511627776 % 256) (n / 281474976710656 % 256)
      (n / 72057594037927936 % 256) = n % 18446744073709551616 := by
  unfold u64v
  omega

theorem encodeStrBytes_length (s : List Nat) :
    (encodeStrBytes s).length = s.length := by
  induction s with
  | nil => rfl
  | cons c cs ih => simp [encodeStrBytes, ih]

theorem encodeStrBytes_eq (s : List Nat) (h : ∀ c ∈ s, c < 256) :
    encodeStrBytes s = s := by
  induction s with
  | nil => rfl
  | cons c cs ih =>
    unfold encodeStrBytes
    rw [Nat.mod_eq_of_lt (h c (List.mem_cons_self _ _)),
      ih (fun x hx => h x (List.mem_cons_of_mem _ hx))]

theorem encodeWStrBytes_length (s : List Nat) :
    (encodeWStrBytes s).length = 2 * s.length := by
  induction s with
  | nil => rfl
  | cons c cs ih =>
    unfold encodeWStrBytes
    simp only [List.length_cons, ih]
    omega

theorem decodeWChars_round (s t : List Nat) (h : ∀ c ∈ s, c < 65536) :
    decodeWChars s.length (encodeWStrBytes s ++ t) = s := by
  induction s with
  | nil => rfl
  | cons c cs ih =>
    have hc : c < 65536 := h c (List.mem_cons_self _ _)
    unfold encodeWStrBytes
    show decodeWChars (cs.length + 1)
      (c % 256 :: c / 256 % 256 :: (encodeWStrBytes cs ++ t)) = _
    unfold decodeWChars
    rw [ih (fun x hx => h x (List.mem_cons_of_mem _ hx))]
    have h2 : c % 256 + 256 * (c / 256 % 256) = c := by omega
    rw [h2]

theorem take_append_len (a b : List Nat) : (a ++ b).take a.length = a := by
  induction a with
  | nil => rfl
  | cons x xs ih => simp [ih]

theorem drop_append_len (a b : List Nat) : (a ++ b).drop a.length = b := by
  induction a with
  | nil => rfl
  | cons x xs ih => simp [ih]

theorem serialize_str_length (s : List Nat) (h : s.length ≤ 4000000000) :
    (serialize_str s).length = 5 + s.length := by
  unfold serialize_str
  rw [if_neg (by omega)]
  simp only [w32, List.length_append, List.length_cons, List.length_nil,
    encodeStrBytes_length]
  omega

theorem serialize_wstr_length (s : List Nat) (h : s.length ≤ 2000000000) :
    (serialize_wstr s).length = 6 + 2 * s.length := by
  unfold serialize_wstr
  rw [if_neg (by omega)]
  simp only [w32, List.length_append, List.length_cons, List.length_nil,
    encodeWStrBytes_length]
  omega

theorem deserialize_str_cons (b0 b1 b2 b3 : Nat) (rest : List Nat) :
    deserialize_str (b0 :: b1 :: b2 :: b3 :: rest) =
      (if rest.length < 1 then none
       else if u32v b0 b1 b2 b3 > 4294967290 then none
       else if rest.length < u32v b0 b1 b2 b3 + 1 then none
       else some (rest.take (u32v b0 b1 b2 b3))) := rfl

theorem deserialize_wstr_cons (b0 b1 b2 b3 : Nat) (rest : List Nat) :
    deserialize_wstr (b0 :: b1 :: b2 :: b3 :: rest) =
      (if rest.length < 2 then none
       else if u32v b0 b1 b2 b3 > 2147483644 then none
       else if rest.length < 2 * u32v b0 b1 b2 b3 + 2 then none
       else some (decodeWChars (u32v b0 b1 b2 b3) rest)) := rfl

theorem deserialize_str_round (s t : List Nat) (hv : charsValid s) :
    deserialize_str (serialize_str s ++ t) = some s := by
  obtain ⟨hc, hl⟩ := hv
  unfold serialize_str
  rw [if_neg (by omega)]
  simp only [w32, List.cons_append, List.nil_append, List.append_assoc]
  rw [deserialize_str_cons]
  have h1 : u32v (s.length % 256) (s.length / 256 % 256) (s.length / 65536 % 256)
      (s.length / 16777216 % 256) = s.length := by
    rw [u32v_w32]
    omega
  rw [h1]
  have hlen : (encodeStrBytes s ++ 0 :: t).length = s.length + 1 + t.length := by
    simp only [List.length_append, List.length_cons, encodeStrBytes_length]
    omega
  rw [hlen, if_neg (by omega), if_neg (by omega), if_neg (by omega)]
  have htake : (encodeStrBytes s ++ 0 :: t).take s.length = encodeStrBytes s := by
    rw [← encodeStrBytes_length s]
    exact take_append_len _ _
  rw [htake, encodeStrBytes_eq s hc]

theorem deserialize_wstr_round (s t : List Nat) (hv : wcharsValid s) :
    deserialize_wstr (serialize_wstr s ++ t) = some s := by
  obtain ⟨hc, hl⟩ := hv
  unfold serialize_wstr
  rw [if_neg (by omega)]
  simp only [w32, List.cons_append, List.nil_append, List.append_assoc]
  rw [deserialize_wstr_cons]
  have h1 : u32v (s.length % 256) (s.length / 256 % 256) (s.length / 65536 % 256)
      (s.length / 16777216 % 256) = s.length := by
    rw [u32v_w32]
    omega
  rw [h1]
  have hlen : (encodeWStrBytes s ++ 0 :: 0 :: t).length = 2 * s.length + 2 + t.length := by
    simp only [List.length_append, List.length_cons, encodeWStrBytes_length]
    omega
  rw [hlen, if_neg (by omega), if_neg (by omega), if_neg (by omega)]
  rw [decodeWChars_round s (0 :: 0 :: t) hc]

theorem decode_encode_value (v : Value) (hv : v.valid) :
    decodeValue (encodeValue v) = v := by
  cases v with
  | clip clip_id vi =>
    cases vi with
    | mk w h2 fn fd nf cf sw sh =>
      simp only [Value.valid] at hv
      obtain ⟨hid, hw, hh, hfn, hfd, hnf, hcf, hsw, hsh⟩ := hv
      unfold encodeValue encodeVideoInfo
      simp only [w32, List.cons_append, List.nil_append]
      simp only [decodeValue]
      rw [if_pos trivial]
      simp only [Value.clip.injEq, VideoInfo.mk.injEq, u32v]
      refine ⟨by omega, by omega, by omega, by omega, by omega, by omega, by omega,
        by omega, by omega⟩
  | boolVal b =>
    simp only [Value.valid] at hv
    unfold encodeValue
    simp only [decodeValue]
    rw [if_neg (by decide), if_pos trivial]
    simp only [Value.boolVal.injEq]
    omega
  | intVal i =>
    simp only [Value.valid] at hv
    unfold encodeValue
    simp only [w32, w64, List.cons_append, List.nil_append]
    simp only [decodeValue]
    rw [if_neg (by decide), if_neg (by decide), if_pos trivial]
    simp only [Value.intVal.injEq]
    rw [u64v_w64]
    omega
  | floatVal f =>
    simp only [Value.valid] at hv
    unfold encodeValue
    simp only [w32, w64, List.cons_append, List.nil_append]
    simp only [decodeValue]
    rw [if_neg (by decide), if_neg (by decide), if_neg (by decide), if_pos trivial]
    simp only [Value.floatVal.injEq]
    rw [u64v_w64]
    omega
  | stringVal s2 =>
    simp only [Value.valid] at hv
    unfold encodeValue
    simp only [w32, List.cons_append, List.nil_append]
    simp only [decodeValue]
    rw [if_neg (by decide), if_neg (by decide), if_neg (by decide), if_neg (by decide),
      if_pos trivial]
    simp only [Value.stringVal.injEq]
    rw [u32v_w32]
    omega
  | raw t =>
    simp only [Value.valid] at hv

theorem mkEnvelope_append (sz tid rid tag : Nat) (p rest : List Nat) :
    mkEnvelope sz tid rid tag p ++ rest = mkEnvelope sz tid rid tag (p ++ rest) := by
  simp [mkEnvelope, List.append_assoc]

theorem mkEnvelope_length (sz tid rid tag : Nat) (p : List Nat) :
    (mkEnvelope sz tid rid tag p).length = 20 + p.length := by
  simp only [mkEnvelope, w32, List.length_cons, List.length_append, List.length_nil]
  omega

theorem deserialize_command_cons (m0 m1 m2 m3 s0 s1 s2 s3 t0 t1 t2 t3
    r0 r1 r2 r3 y0 y1 y2 y3 : Nat) (rest : List Nat) :
    deserialize_command (m0 :: m1 :: m2 :: m3 :: s0 :: s1 :: s2 :: s3 ::
      t0 :: t1 :: t2 :: t3 :: r0 :: r1 :: r2 :: r3 :: y0 :: y1 :: y2 :: y3 :: rest) =
      (if m0 = 99 ∧ m1 = 109 ∧ m2 = 100 ∧ m3 = 120 then
        if u32v s0 s1 s2 s3 < 20 then .error .bufferOverrun
        else
          parsePayload (u32v y0 y1 y2 y3) (u32v t0 t1 t2 t3) (u32v r0 r1 r2 r3)
            (rest.take (u32v s0 s1 s2 s3 - 20))
      else .error .assertFail) := rfl

theorem deserialize_mkEnvelope (sz tid rid tag : Nat) (q : List Nat)
    (hsz : 20 ≤ sz) (hszb : sz < 4294967296) (htid : tid < 4294967296)
    (hrid : rid < 4294967296) (htagb : tag < 4294967296) :
    deserialize_command (mkEnvelope sz tid rid tag q) =
      parsePayload tag tid rid (q.take (sz - 20)) := by
  unfold mkEnvelope
  simp only [w32, List.cons_append, List.nil_append]
  rw [deserialize_command_cons, if_pos ⟨rfl, rfl, rfl, rfl⟩]
  have h1 : u32v (sz % 256) (sz / 256 % 256) (sz / 65536 % 256) (sz / 16777216 % 256)
      = sz := by rw [u32v_w32]; omega
  have h2 : u32v (tid % 256) (tid / 256 % 256) (tid / 65536 % 256) (tid / 16777216 % 256)
      = tid := by rw [u32v_w32]; omega
  have h3 : u32v (rid % 256) (rid / 256 % 256) (rid / 65536 % 256) (rid / 16777216 % 256)
      = rid := by rw [u32v_w32]; omega
  have h4 : u32v (tag % 256) (tag / 256 % 256) (tag / 65536 % 256) (tag / 16777216 % 256)
      = tag := by rw [u32v_w32]; omega
  rw [h1, h2, h3, h4, if_neg (by omega)]

theorem deserialize_mkEnvelope_short (sz tid rid tag : Nat) (q : List Nat)
    (hsz : sz < 20) :
    deserialize_command (mkEnvelope sz tid rid tag q) = .error .bufferOverrun := by
  unfold mkEnvelope
  simp only [w32, List.cons_append, List.nil_append]
  rw [deserialize_command_cons, if_pos ⟨rfl, rfl, rfl, rfl⟩,
    if_pos (by rw [u32v_w32]; omega)]

theorem parsePayload_unknown (tag tid rid : Nat) (p : List Nat) (h : 10 ≤ tag) :
    parsePayload tag tid rid p = .ok none := by
  unfold parsePayload
  rw [if_neg (by omega : ¬tag = 0), if_neg (by omega : ¬tag = 1),
    if_neg (by omega : ¬tag = 2), if_neg (by omega : ¬tag = 3),
    if_neg (by omega : ¬tag = 4), if_neg (by omega : ¬tag = 5),
    if_neg (by omega : ¬tag = 6), if_neg (by omega : ¬tag = 7),
    if_neg (by omega : ¬tag = 8), if_neg (by omega : ¬tag = 9)]

theorem w32_length (n : Nat) : (w32 n).length = 4 := rfl

theorem encodeValue_length (v : Value) : (encodeValue v).length = 40 := by
  cases v <;>
    simp [encodeValue, encodeVideoInfo, w32, w64, List.length_append, List.length_cons]

theorem padTo8_length_le (n : Nat) : (padTo8 n).length ≤ 7 := by
  unfold padTo8
  by_cases h : n % 8 = 0
  · simp [h]
  · rw [if_neg h]
    simp only [List.length_replicate]
    omega

theorem typeTag_lt (cmd : Cmd) : typeTag cmd < 4294967296 := by
  cases cmd <;> norm_num [typeTag]

theorem deserialize_serialize_shape (tid rid : Nat) (cmd : Cmd)
    (htid : tid < 4294967296) (hrid : rid < 4294967296)
    (hL : (payloadBytes cmd).length ≤ 4294967200) :
    deserialize_command (serialize_command ⟨tid, rid, cmd⟩) =
      parsePayload (typeTag cmd) tid rid (payloadBytes cmd) := by
  simp only [serialize_command]
  have hmod : (20 + (payloadBytes cmd).length) % 4294967296 =
      20 + (payloadBytes cmd).length := Nat.mod_eq_of_lt (by omega)
  rw [hmod]
  rw [deserialize_mkEnvelope _ _ _ _ _ (by omega) (by omega) htid hrid (typeTag_lt cmd)]
  have htk : 20 + (payloadBytes cmd).length - 20 = (payloadBytes cmd).length := by omega
  rw [htk, List.take_length]

theorem magicOkBytes_mkEnvelope (sz tid rid tag : Nat) (q : List Nat) :
    magicOkBytes (mkEnvelope sz tid rid tag q) = true := rfl

theorem declaredSize_mkEnvelope (sz tid rid tag : Nat) (q : List Nat)
    (hszb : sz < 4294967296) :
    declaredSize (mkEnvelope sz tid rid tag q) = sz := by
  show u32v (sz % 256) (sz / 256 % 256) (sz / 65536 % 256) (sz / 16777216 % 256) = sz
  rw [u32v_w32]
  omega

theorem mkEnvelope_drop20 (sz tid rid tag : Nat) (q : List Nat) :
    (mkEnvelope sz tid rid tag q).drop 20 = q := rfl

theorem recvLoop_cons (fuel : Nat) (b : Nat) (bs : List Nat) :
    recvLoop (fuel + 1) (b :: bs) =
      (if (b :: bs).length < 20 then .error .outOfBounds
       else if magicOkBytes (b :: bs) = false then .error .badHeader
       else if declaredSize (b :: bs) > (b :: bs).length then .error .outOfBounds
       else
         match deserialize_command (b :: bs) with
         | .error e => .error (.codec e)
         | .ok oc =>
           match recvLoop fuel ((b :: bs).drop (declaredSize (b :: bs))) with
           | .error e => .error e
           | .ok l => .ok (oc :: l)) := rfl

theorem recvLoop_envelope (fuel sz tid rid tag : Nat) (q : List Nat)
    (hszb : sz < 4294967296) (hle : sz ≤ 20 + q.length) :
    recvLoop (fuel + 1) (mkEnvelope sz tid rid tag q) =
      (match deserialize_command (mkEnvelope sz tid rid tag q) with
       | .error e => .error (.codec e)
       | .ok oc =>
         match recvLoop fuel ((mkEnvelope sz tid rid tag q).drop sz) with
         | .error e => .error e
         | .ok l => .ok (oc :: l)) := by
  show recvLoop (fuel + 1)
      (99 :: 109 :: 100 :: 120 :: (w32 sz ++ (w32 tid ++ (w32 rid ++ (w32 tag ++ q))))) = _
  rw [recvLoop_cons]
  rw [show (99 :: 109 :: 100 :: 120 ::
      (w32 sz ++ (w32 tid ++ (w32 rid ++ (w32 tag ++ q)))) : List Nat) =
      mkEnvelope sz tid rid tag q from rfl]
  rw [mkEnvelope_length, if_neg (by omega), magicOkBytes_mkEnvelope, if_neg (by simp),
    declaredSize_mkEnvelope sz tid rid tag q hszb, if_neg (by omega)]

theorem u32v_w32_lt (n : Nat) (h : n < 4294967296) :
    u32v (n % 256) (n / 256 % 256) (n / 65536 % 256) (n / 16777216 % 256) = n := by
  rw [u32v_w32]
  omega

theorem roundtrip_aux (c : ClientCommand) (hc : c.valid) :
    deserialize_command (serialize_command c) = .ok (some c) := by
  obtain ⟨tid, rid, cmd⟩ := c
  simp only [ClientCommand.valid] at hc
  obtain ⟨htid, hrid, hcmd⟩ := hc
  cases cmd with
  | ack =>
    rw [deserialize_serialize_shape tid rid _ htid hrid (by norm_num [payloadBytes])]
    simp only [typeTag, payloadBytes]
    unfold parsePayload
    rw [if_pos rfl]
  | err =>
    rw [deserialize_serialize_shape tid rid _ htid hrid (by norm_num [payloadBytes])]
    simp only [typeTag, payloadBytes]
    unfold parsePayload
    rw [if_neg (by decide), if_pos rfl]
  | newScriptEnv =>
    rw [deserialize_serialize_shape tid rid _ htid hrid (by norm_num [payloadBytes])]
    simp only [typeTag, payloadBytes]
    unfold parsePayload
    rw [if_neg (by decide), if_neg (by decide), if_neg (by decide), if_neg (by decide),
      if_pos rfl]
  | setLogFile s2 =>
    obtain ⟨hcs, hls⟩ := hcmd
    rw [deserialize_serialize_shape tid rid _ htid hrid
      (by simp only [payloadBytes]; rw [serialize_wstr_length s2 hls]; omega)]
    simp only [typeTag, payloadBytes]
    unfold parsePayload
    rw [if_neg (by decide), if_neg (by decide), if_pos rfl]
    have hrt := deserialize_wstr_round s2 [] ⟨hcs, hls⟩
    rw [List.append_nil] at hrt
    rw [hrt]
  | loadAvisynth s2 =>
    obtain ⟨hcs, hls⟩ := hcmd
    rw [deserialize_serialize_shape tid rid _ htid hrid
      (by simp only [payloadBytes]; rw [serialize_wstr_length s2 hls]; omega)]
    simp only [typeTag, payloadBytes]
    unfold parsePayload
    rw [if_neg (by decide), if_neg (by decide), if_neg (by decide), if_pos rfl]
    have hrt := deserialize_wstr_round s2 [] ⟨hcs, hls⟩
    rw [List.append_nil] at hrt
    rw [hrt]
  | getScriptVar s2 =>
    obtain ⟨hcs, hls⟩ := hcmd
    rw [deserialize_serialize_shape tid rid _ htid hrid
      (by simp only [payloadBytes]; rw [serialize_str_length s2 hls]; omega)]
    simp only [typeTag, payloadBytes]
    unfold parsePayload
    rw [if_neg (by decide), if_neg (by decide), if_neg (by decide), if_neg (by decide),
      if_neg (by decide), if_pos rfl]
    have hrt := deserialize_str_round s2 [] ⟨hcs, hls⟩
    rw [List.append_nil] at hrt
    rw [hrt]
  | evalScript off =>
    simp only [Cmd.valid] at hcmd
    rw [deserialize_serialize_shape tid rid _ htid hrid (by norm_num [payloadBytes, w32])]
    simp only [typeTag, payloadBytes]
    unfold parsePayload
    rw [if_neg (by decide), if_neg (by decide), if_neg (by decide), if_neg (by decide),
      if_neg (by decide), if_neg (by decide), if_neg (by decide), if_pos rfl]
    show Except.ok (some ({ transaction_id := tid, response_id := rid, cmd := Cmd.evalScript (u32v (off % 256) (off / 256 % 256) (off / 65536 % 256) (off / 16777216 % 256)) } : ClientCommand)) =
      Except.ok (some ({ transaction_id := tid, response_id := rid, cmd := Cmd.evalScript off } : ClientCommand))
    rw [u32v_w32_lt off hcmd]
  | getFrame r =>
    cases r with
    | mk cid fno =>
      simp only [Cmd.valid] at hcmd
      obtain ⟨hcid, hfno⟩ := hcmd
      rw [deserialize_serialize_shape tid rid _ htid hrid
        (by norm_num [payloadBytes, w32, List.length_append])]
      simp only [typeTag, payloadBytes]
      unfold parsePayload
      rw [if_neg (by decide), if_neg (by decide), if_neg (by decide), if_neg (by decide),
        if_neg (by decide), if_neg (by decide), if_neg (by decide), if_neg (by decide),
        if_pos rfl]
      show Except.ok (some ({ transaction_id := tid, response_id := rid, cmd := Cmd.getFrame { clip_id := u32v (cid % 256) (cid / 256 % 256) (cid / 65536 % 256) (cid / 16777216 % 256), frame_number := u32v (fno % 256) (fno / 256 % 256) (fno / 65536 % 256) (fno / 16777216 % 256) } } : ClientCommand)) =
        Except.ok (some ({ transaction_id := tid, response_id := rid, cmd := Cmd.getFrame { clip_id := cid, frame_number := fno } } : ClientCommand))
      rw [u32v_w32_lt cid hcid, u32v_w32_lt fno hfno]
  | setFrame f =>
    cases f with
    | mk req hoff s0 s1 s2 s3 h0 h1 h2 h3 =>
      cases req with
      | mk cid fno =>
        simp only [Cmd.valid] at hcmd
        obtain ⟨hc1, hc2, hc3, hc4, hc5, hc6, hc7, hc8, hc9, hc10, hc11⟩ := hcmd
        rw [deserialize_serialize_shape tid rid _ htid hrid
          (by norm_num [payloadBytes, w32, List.length_append])]
        simp only [typeTag, payloadBytes]
        unfold parsePayload
        rw [if_neg (by decide), if_neg (by decide), if_neg (by decide), if_neg (by decide),
          if_neg (by decide), if_neg (by decide), if_neg (by decide), if_neg (by decide),
          if_neg (by decide), if_pos rfl]
        show Except.ok (some ({ transaction_id := tid, response_id := rid, cmd := Cmd.setFrame { request := { clip_id := u32v (cid % 256) (cid / 256 % 256) (cid / 65536 % 256) (cid / 16777216 % 256), frame_number := u32v (fno % 256) (fno / 256 % 256) (fno / 65536 % 256) (fno / 16777216 % 256) }, heap_offset := u32v (hoff % 256) (hoff / 256 % 256) (hoff / 65536 % 256) (hoff / 16777216 % 256), stride0 := u32v (s0 % 256) (s0 / 256 % 256) (s0 / 65536 % 256) (s0 / 16777216 % 256), stride1 := u32v (s1 % 256) (s1 / 256 % 256) (s1 / 65536 % 256) (s1 / 16777216 % 256), stride2 := u32v (s2 % 256) (s2 / 256 % 256) (s2 / 65536 % 256) (s2 / 16777216 % 256), stride3 := u32v (s3 % 256) (s3 / 256 % 256) (s3 / 65536 % 256) (s3 / 16777216 % 256), height0 := u32v (h0 % 256) (h0 / 256 % 256) (h0 / 65536 % 256) (h0 / 16777216 % 256), height1 := u32v (h1 % 256) (h1 / 256 % 256) (h1 / 65536 % 256) (h1 / 16777216 % 256), height2 := u32v (h2 % 256) (h2 / 256 % 256) (h2 / 65536 % 256) (h2 / 16777216 % 256), height3 := u32v (h3 % 256) (h3 / 256 % 256) (h3 / 65536 % 256) (h3 / 16777216 % 256) } } : ClientCommand)) =
          Except.ok (some ({ transaction_id := tid, response_id := rid, cmd := Cmd.setFrame { request := { clip_id := cid, frame_number := fno }, heap_offset := hoff, stride0 := s0, stride1 := s1, stride2 := s2, stride3 := s3, height0 := h0, height1 := h1, height2 := h2, height3 := h3 } } : ClientCommand))
        rw [u32v_w32_lt cid hc1, u32v_w32_lt fno hc2, u32v_w32_lt hoff hc3, u32v_w32_lt s0 hc4, u32v_w32_lt s1 hc5, u32v_w32_lt s2 hc6, u32v_w32_lt s3 hc7, u32v_w32_lt h0 hc8, u32v_w32_lt h1 hc9, u32v_w32_lt h2 hc10, u32v_w32_lt h3 hc11]
  | setScriptVar nm v =>
    obtain ⟨⟨hcn, hln⟩, hvv⟩ := hcmd
    have hsl := serialize_str_length nm hln
    have hpl := padTo8_length_le (serialize_str nm).length
    have hvl := encodeValue_length v
    have hLL : (payloadBytes (Cmd.setScriptVar nm v)).length =
        (serialize_str nm).length + ((padTo8 (serialize_str nm).length).length +
          (encodeValue v).length) := by
      simp only [payloadBytes, List.length_append]
    rw [deserialize_serialize_shape tid rid _ htid hrid (by rw [hLL]; omega)]
    simp only [typeTag, payloadBytes]
    unfold parsePayload
    rw [if_neg (by decide), if_neg (by decide), if_neg (by decide), if_neg (by decide),
      if_neg (by decide), if_neg (by decide), if_pos rfl]
    have hrt := deserialize_str_round nm
      (padTo8 (serialize_str nm).length ++ encodeValue v) ⟨hcn, hln⟩
    simp only [hrt]
    have hcons : 5 + nm.length = (serialize_str nm).length := hsl.symm
    by_cases hpad : (5 + nm.length) % 8 = 0
    · rw [if_pos hpad]
      have hempty : padTo8 (serialize_str nm).length = [] := by
        unfold padTo8
        rw [if_pos (by omega)]
      have hdrop : (serialize_str nm ++ (padTo8 (serialize_str nm).length ++
          encodeValue v)).drop (5 + nm.length) = encodeValue v := by
        rw [hempty, List.nil_append, hcons, drop_append_len]
      rw [hdrop, decode_encode_value v hvv]
    · rw [if_neg hpad]
      have hplen : (padTo8 (serialize_str nm).length).length = 8 - (5 + nm.length) % 8 := by
        unfold padTo8
        rw [if_neg (by omega)]
        rw [List.length_replicate, hsl]
      have htot : (serialize_str nm ++ (padTo8 (serialize_str nm).length ++
          encodeValue v)).length = (5 + nm.length) + (8 - (5 + nm.length) % 8) + 40 := by
        simp only [List.length_append]
        omega
      rw [htot, if_neg (by omega)]
      have hdrop : (serialize_str nm ++ (padTo8 (serialize_str nm).length ++
          encodeValue v)).drop (5 + nm.length + (8 - (5 + nm.length) % 8)) =
          encodeValue v := by
        rw [← List.append_assoc]
        have hlen2 : (serialize_str nm ++ padTo8 (serialize_str nm).length).length =
            5 + nm.length + (8 - (5 + nm.length) % 8) := by
          simp only [List.length_append]
          omega
        rw [← hlen2, drop_append_len]
      rw [hdrop, decode_encode_value v hvv]

/-- C3: for every command kind and every valid payload, deserializing the
serialized command yields the command back field by field (type,
transaction id, response id, payload); deserializing an envelope whose
declared size is below the 20-byte envelope raises the deserialization
error (the spec's BadFrame kind); and an envelope with an unknown type
tag deserializes to null, the receive loop skipping exactly the
envelope's declared size and continuing with the rest of the buffer. -/
theorem command_codec_roundtrip
    (c : ClientCommand) (hc : c.valid)
    (sz0 tid rid tag : Nat) (p rest : List Nat) (fuel : Nat)
    (hsz0 : sz0 < 20) (htag : 10 ≤ tag) (htagb : tag < 4294967296)
    (htid : tid < 4294967296) (hrid : rid < 4294967296)
    (hp : 20 + p.length < 4294967296) :
    deserialize_command (serialize_command c) = .ok (some c) ∧
    deserialize_command (mkEnvelope sz0 tid rid tag p) = .error .bufferOverrun ∧
    deserialize_command (mkEnvelope (20 + p.length) tid rid tag p ++ rest) = .ok none ∧
    recvLoop (fuel + 1) (mkEnvelope (20 + p.length) tid rid tag p ++ rest) =
      (match recvLoop fuel rest with
       | .error e => .error e
       | .ok l => .ok (none :: l)) := by
  have hskip : deserialize_command (mkEnvelope (20 + p.length) tid rid tag (p ++ rest)) =
      .ok none := by
    rw [deserialize_mkEnvelope _ _ _ _ _ (by omega) hp htid hrid htagb]
    exact parsePayload_unknown tag tid rid _ htag
  refine ⟨roundtrip_aux c hc, deserialize_mkEnvelope_short sz0 tid rid tag p hsz0, ?_, ?_⟩
  · rw [mkEnvelope_append]
    exact hskip
  · rw [mkEnvelope_append]
    rw [recvLoop_envelope fuel (20 + p.length) tid rid tag (p ++ rest) hp
      (by simp only [List.length_append]; omega)]
    simp only [hskip]
    have hdrop : (mkEnvelope (20 + p.length) tid rid tag (p ++ rest)).drop (20 + p.length) =
        rest := by
      rw [← List.drop_drop, mkEnvelope_drop20, drop_append_len]
    simp only [hdrop]

theorem command_codec_roundtrip_witness :
    deserialize_command (serialize_command
        ⟨7, 8, .setScriptVar [65, 66] (.intVal 300)⟩) =
      .ok (some ⟨7, 8, .setScriptVar [65, 66] (.intVal 300)⟩) ∧
    deserialize_command (mkEnvelope 5 1 2 12 [1, 2, 3]) = .error .bufferOverrun ∧
    deserialize_command (mkEnvelope (20 + [1, 2, 3].length) 1 2 12 [1, 2, 3] ++ []) =
      .ok none ∧
    recvLoop (0 + 1) (mkEnvelope (20 + [1, 2, 3].length) 1 2 12 [1, 2, 3] ++ []) =
      (match recvLoop 0 [] with
       | .error e => .error e
       | .ok l => .ok (none :: l)) :=
  command_codec_roundtrip ⟨7, 8, .setScriptVar [65, 66] (.intVal 300)⟩ (by decide)
    5 1 2 12 [1, 2, 3] [] 0 (by decide) (by decide) (by decide) (by decide) (by decide)
    (by decide)

end Avsproxy
